import Mathlib

/-!
Verification development for the keyboard navigation core of the repository
(class KeyboardNavigation, src/unnamed/part_001). The embedding models the
coordinator state and its event handlers as pure functions over an explicit
state record. Navigation modules (KeyboardNavigationHandler instances) are
abstracted by their contract surface: an optional pure validate result, the
presence of init and terminate capabilities, and a run function from key
events to response codes. Side effects of the source (init and terminate and
run calls on modules, focus transfers, preventDefault) are recorded in an
action trace carried by the state, and an activity set tracks module ids that
received init without a subsequent terminate delivery. Per the contract
defaults of the spec (section 4.1), a terminate that the coordinator would
deliver to a module lacking the capability counts as a delivered no-op for
activity bookkeeping; the actual call is only recorded in the trace when the
capability is present, matching the source guards.
-/

set_option autoImplicit false

namespace KeyboardNav

/-- Response codes a module run function can return. The source compares the
result against the response table of the module (success, prev, next); any
other value, including the explicit noResponse code and unrecognized codes,
falls through every comparison. -/
inductive Response where
  | success
  | prev
  | next
  | noResponse
  | unrecognized (code : Nat)
deriving DecidableEq

/-- Observable side effects of the coordinator, recorded in order. The
preventDefault action stands for the preventDefault plus stopPropagation pair
of the source, which always occur together. -/
inductive Action where
  | initM (ix : Int) (id : Nat) (d : Int)
  | termM (id : Nat)
  | runM (ix : Int) (id : Nat)
  | removeBorder
  | progExit
  | focusAnchor
  | focusContainer
  | preventDefault
deriving DecidableEq

/-- Where native focus currently rests, as far as the coordinator moves it. -/
inductive FocusLoc where
  | outside
  | container
  | anchor
  | moduleEl (ix : Int)
deriving DecidableEq

/-- A navigation module (KeyboardNavigationHandler) as seen through the
contract of section 4.2: validate is optional and pure, so it is modelled as
an optional Bool; init and terminate are optional capabilities; run maps a
key event (abstracted to a Nat key code) to a response. The id field gives
the module an identity for activity tracking. -/
structure NavModule where
  id : Nat
  validate : Option Bool
  hasInit : Bool
  hasTerminate : Bool
  run : Nat → Response

/-- Coordinator state: the fields of the KeyboardNavigation class that the
handlers read or write, plus the chart focus element flag, the exit anchor
presence, the container tabindex attribute, a count of live event
subscriptions, the focus location, the activity set and the action trace. -/
structure KNState where
  modules : List NavModule
  currentModuleIx : Int
  exiting : Bool
  keyboardReset : Bool
  isClickingChart : Bool
  pointerIsOverChart : Bool
  tabbingInBackwards : Bool
  focusElement : Bool
  hasExitAnchor : Bool
  containerTabindex : Bool
  subs : Nat
  focused : FocusLoc
  active : List Nat
  trace : List Action

/-- JavaScript array indexing with an arbitrary integer index: a negative or
out of range index yields undefined. -/
def getAt (l : List NavModule) (i : Int) : Option NavModule :=
  if 0 ≤ i then l.get? i.toNat else none

/-- Append one recorded action to the trace. -/
def addAction (s : KNState) (a : Action) : KNState :=
  { s with trace := s.trace ++ [a] }

/-- Add a module id to the activity set without duplicating it. -/
def insertActive (l : List Nat) (i : Nat) : List Nat :=
  if i ∈ l then l else i :: l

/-- Deliver init to the module at index ix. The source call sites either
guard on the presence of init (move) or call it unguarded (onFocus and the
exit anchor handler); both are modelled as a recorded delivery, and the
module becomes active. Module init implementations set focus to their own
element and show the focus indicator, which is the only thing the
coordinator observes about them. -/
def doInit (s : KNState) (ix : Int) (m : NavModule) (d : Int) : KNState :=
  { s with trace := s.trace ++ [Action.initM ix m.id d],
           active := insertActive s.active m.id,
           focusElement := true,
           focused := FocusLoc.moduleEl ix }

/-- Deliver terminate to a module at a coordinator terminate site. The source
guards the actual call with the presence of terminate; a missing terminate is
a contract default no-op (spec section 4.1), so the module leaves the
activity set either way, while the call itself is recorded only when the
capability exists. -/
def coordTerminate (s : KNState) (m : NavModule) : KNState :=
  { s with trace := if m.hasTerminate then s.trace ++ [Action.termM m.id] else s.trace,
           active := s.active.erase m.id }

/-- Remove the focus border if the chart has a focus element
(lines 322 to 324 and 236 to 238 of the source). -/
def clearFocusBorder (s : KNState) : KNState :=
  if s.focusElement then
    { s with focusElement := false, trace := s.trace ++ [Action.removeBorder] }
  else s

/-- Handler for focus events on the tabindex container
(KeyboardNavigation.onFocus, lines 198 to 217). fromChart is the result of
the relatedTarget containment test of the source. Module 0 receives init
when tabbing in from outside without an exit, backward tab or click in
progress; the exiting flag is consumed unconditionally. -/
def onFocusFn (s : KNState) (fromChart : Bool) : KNState :=
  let s1 :=
    if !s.exiting && !s.tabbingInBackwards && !s.isClickingChart && !fromChart then
      match getAt s.modules 0 with
      | some m0 => doInit s 0 m0 1
      | none => s
    else s
  { s1 with exiting := false }

/-- The exit anchor focus handler when the focus placement is programmatic:
move sets exiting to true immediately before focusing the anchor, so the
attached handler (addExitAnchorEventsToEl, lines 450 to 506) always takes its
else branch there, which only clears the exiting flag. The full handler is
anchorFocusFn below; the lemma anchorFocus_of_exiting proves this inlining
faithful. -/
def anchorFocusElse (s : KNState) : KNState :=
  { s with exiting := false }

/-- The exit epilogue of move (lines 338 to 349): reset the index, set the
exiting cause flag, then focus the forward exit anchor or the container tab
stop depending on direction, which synchronously runs the corresponding focus
handler. The anchor handler runs only while its subscription exists, and runs
with exiting just set, hence through its else branch (anchorFocusElse); the
container focus runs onFocus with exiting set, and the relatedTarget flag
passed there is irrelevant because exiting blocks the init branch. -/
def moveExitPath (s : KNState) (d : Int) : KNState :=
  let sD := addAction { s with currentModuleIx := 0, exiting := true } Action.progExit
  if d > 0 then
    let sE := addAction { sD with focused := FocusLoc.anchor } Action.focusAnchor
    if sE.hasExitAnchor then anchorFocusElse sE else sE
  else
    let sE := addAction { sD with focused := FocusLoc.container } Action.focusContainer
    onFocusFn sE true

/-- The entry phase of each move iteration (lines 316 to 326): terminate the
module at the current index when one exists, remove any focus border, advance
the index by the direction. -/
def moveEnter (s : KNState) (d : Int) : KNState :=
  let sA := match getAt s.modules s.currentModuleIx with
            | some cur => coordTerminate s cur
            | none => s
  let sB := clearFocusBorder sA
  { sB with currentModuleIx := sB.currentModuleIx + d }

/-- The body of KeyboardNavigation.move (lines 313 to 350), with the bounded
recursion made explicit through a fuel parameter; each fuel step is one entry
of the source function, that is one skip iteration, one landing or the exit
epilogue. After the entry phase, an in range module failing validate causes
recursion, a valid module with init is initialized (returning true), and
otherwise the exit epilogue runs. -/
def moveAux : Nat → KNState → Int → Option (KNState × Bool)
  | 0, _, _ => none
  | fuel + 1, s, d =>
    let sC := moveEnter s d
    match getAt sC.modules sC.currentModuleIx with
    | some m =>
      if m.validate = some false then
        moveAux fuel sC d
      else if m.hasInit then
        some (doInit sC sC.currentModuleIx m d, true)
      else
        some (moveExitPath sC d, false)
    | none => some (moveExitPath sC d, false)

/-- Fuel sufficient for move from any state: the skip loop visits at most
every module once. -/
def moveFuel (s : KNState) : Nat := s.modules.length + 3

/-- KeyboardNavigation.move with the fuel instantiated; the fuel is proved
sufficient (move_defined below), so the default branch value is never
returned for direction plus or minus one. -/
def move (s : KNState) (d : Int) : KNState × Bool :=
  (moveAux (moveFuel s) s d).getD (s, false)

/-- The focus handler installed on the exit anchor
(addExitAnchorEventsToEl, lines 450 to 506). When the focus neither comes
from inside the chart nor from a programmatic exit, the handler redirects
focus to the container (running onFocus synchronously while
tabbingInBackwards is set, so module 0 is not initialized), prevents the
default, primes the index at the last module and either initializes it when
valid or moves backward to skip invalid tail modules. Otherwise it merely
consumes the exiting flag. -/
def anchorFocusFn (s : KNState) (fromChart : Bool) : KNState :=
  if !fromChart && !s.exiting then
    let s1 := { s with tabbingInBackwards := true }
    let s2 := onFocusFn (addAction { s1 with focused := FocusLoc.container } Action.focusContainer) false
    let s3 := { s2 with tabbingInBackwards := false }
    let s4 := addAction s3 Action.preventDefault
    if s4.modules.length ≠ 0 then
      let lastIx : Int := (s4.modules.length : Int) - 1
      let s5 := { s4 with currentModuleIx := lastIx }
      match getAt s5.modules lastIx with
      | some m =>
        if m.validate = some false then
          (move s5 (-1)).1
        else
          doInit s5 lastIx m (-1)
      | none => s5
    else s4
  else
    anchorFocusElse s

/-- Handler for keydown events on the container
(KeyboardNavigation.onKeydown, lines 250 to 284). The reset flags are
cleared, the module at the current index (if the sequence is nonempty and the
index in range) runs the event, and the response decides suppression:
success always suppresses, prev and next suppress exactly when the move
landed, anything else leaves native handling alone. -/
def onKeydownFn (s : KNState) (key : Nat) : KNState :=
  let s0 := { s with keyboardReset := false, exiting := false }
  if s0.modules.length = 0 then s0 else
  match getAt s0.modules s0.currentModuleIx with
  | none => s0
  | some m =>
    let s1 := addAction s0 (Action.runM s0.currentModuleIx m.id)
    match m.run key with
    | Response.success => addAction s1 Action.preventDefault
    | Response.prev =>
        let r := move s1 (-1)
        if r.2 then addAction r.1 Action.preventDefault else r.1
    | Response.next =>
        let r := move s1 1
        if r.2 then addAction r.1 Action.preventDefault else r.1
    | _ => s1

/-- Handler for document pointer up events
(KeyboardNavigation.onMouseUp, lines 225 to 242). The clicking flag is always
dropped; when the state is not already reset and the pointer is outside the
chart, the current module is terminated, the focus border cleared, the index
reset and the state marked reset. -/
def onMouseUpFn (s : KNState) : KNState :=
  let s0 := { s with isClickingChart := false }
  if !s0.keyboardReset && !s0.pointerIsOverChart then
    let s1 := match getAt s0.modules s0.currentModuleIx with
              | some m => coordTerminate s0 m
              | none => s0
    let s2 := clearFocusBorder s1
    { s2 with currentModuleIx := 0, keyboardReset := true }
  else s0

/-- Container tabindex maintenance (updateContainerTabindex, lines 379 to
402), reduced to the single attribute flag the claims observe: the attribute
is added when navigation is enabled and missing, and removed when disabled. -/
def updateContainerTabindexFn (s : KNState) (enabled : Bool) : KNState :=
  if enabled && !s.containerTabindex then { s with containerTabindex := true }
  else if !enabled then { s with containerTabindex := false }
  else s

/-- Remove the exit anchor element when present
(removeExitAnchor, lines 438 to 444). The anchor subscription itself stays
registered with the event provider. -/
def removeExitAnchorFn (s : KNState) : KNState :=
  if s.hasExitAnchor then { s with hasExitAnchor := false } else s

/-- Recreate or reuse the exit anchor and attach its focus handler
(updateExitAnchor plus addExitAnchorEventsToEl). -/
def updateExitAnchorFn (s : KNState) : KNState :=
  let s1 := removeExitAnchorFn s
  { s1 with hasExitAnchor := true, subs := s1.subs + 1 }

/-- Rebuild of the module sequence (KeyboardNavigation.update, lines 159 to
190). The order argument carries, per component in tab order, the module list
that getKeyboardNavigation returns; the source folds them together with
concat. With navigation enabled and a nonempty order the modules are rebuilt
and the exit anchor refreshed, and the current index is left untouched;
otherwise the sequence collapses to empty, the index resets to zero and the
anchor is removed. -/
def updateFn (s : KNState) (enabled : Bool) (order : List (List NavModule)) : KNState :=
  let s0 := updateContainerTabindexFn s enabled
  if enabled && order.length ≠ 0 then
    updateExitAnchorFn { s0 with modules := order.foldl (· ++ ·) [] }
  else
    removeExitAnchorFn { s0 with modules := [], currentModuleIx := 0 }

/-- Teardown (KeyboardNavigation.destroy, lines 513 to 517): remove the exit
anchor, release every event subscription, strip the container tabindex.
Modelled from the spec: EventProvider.removeAddedEvents is not part of the
reviewed sources; per section 4.3 it releases every subscription acquired
through the instance, which the subscription count going to zero models. -/
def destroyFn (s : KNState) : KNState :=
  let s1 := removeExitAnchorFn s
  let s2 := { s1 with subs := 0 }
  { s2 with containerTabindex := false }

/-- One coordinator transition for each externally triggered event the claims
quantify over: focus entering the container, a keydown, a pointer up, a
direct move, focus landing on the exit anchor, and a rebuild. -/
inductive Step : KNState → KNState → Prop where
  | focusEnter (s : KNState) (fromChart : Bool) : Step s (onFocusFn s fromChart)
  | keydown (s : KNState) (key : Nat) : Step s (onKeydownFn s key)
  | mouseup (s : KNState) : Step s (onMouseUpFn s)
  | moveEv (s : KNState) (d : Int) (h : d = 1 ∨ d = -1) : Step s (move s d).1
  | anchorFocus (s : KNState) (fromChart : Bool) : Step s (anchorFocusFn s fromChart)
  | rebuild (s : KNState) (enabled : Bool) (order : List (List NavModule)) :
      Step s (updateFn s enabled order)

/-- The transition system restricted so that focus entry, exit anchor focus
and rebuild happen only while no module is active; keydown, pointer up and
move stay unrestricted. -/
inductive GStep : KNState → KNState → Prop where
  | focusEnter (s : KNState) (fromChart : Bool) (hA : s.active = []) :
      GStep s (onFocusFn s fromChart)
  | keydown (s : KNState) (key : Nat) : GStep s (onKeydownFn s key)
  | mouseup (s : KNState) : GStep s (onMouseUpFn s)
  | moveEv (s : KNState) (d : Int) (h : d = 1 ∨ d = -1) : GStep s (move s d).1
  | anchorFocus (s : KNState) (fromChart : Bool) (hA : s.active = []) :
      GStep s (anchorFocusFn s fromChart)
  | rebuild (s : KNState) (enabled : Bool) (order : List (List NavModule)) (hA : s.active = []) :
      GStep s (updateFn s enabled order)

/-- Invariant of the guarded system: either nothing is active and the index
rests at zero, or exactly the module at the current index is active. -/
def ActInv (s : KNState) : Prop :=
  (s.active = [] ∧ s.currentModuleIx = 0) ∨
    (∃ m, getAt s.modules s.currentModuleIx = some m ∧ s.active = [m.id])

/-- Direction order on indices: j lies strictly beyond ix in direction d. -/
def inDirB (ix d j : Int) : Bool :=
  if 0 < d then decide (ix < j) else decide (j < ix)

/-- k lies strictly between ix and j in direction d. -/
def betweenB (ix d j k : Int) : Bool :=
  if 0 < d then decide (ix < k ∧ k < j) else decide (j < k ∧ k < ix)

/-- There is a module in direction d from ix that move can land on: it is
valid, has init, and every index strictly before it in that direction holds a
module failing validate. -/
def landable (modules : List NavModule) (ix d : Int) : Prop :=
  ∃ j m, getAt modules j = some m ∧ inDirB ix d j = true ∧
    m.validate ≠ some false ∧ m.hasInit = true ∧
    ∀ k, betweenB ix d j k = true →
      ∃ mk, getAt modules k = some mk ∧ mk.validate = some false

/-- Every module strictly in direction d from the current index fails
validate (in particular, there is no valid module in that direction). -/
def noValidInDir (modules : List NavModule) (ix d : Int) : Prop :=
  ∀ j m, getAt modules j = some m → inDirB ix d j = true → m.validate = some false

/-- A freshly initialized coordinator over the given module sequence: index
zero, all cause flags clear, exit anchor present, empty activity and trace.
The subscription count is the six listeners init registers plus the anchor
handler. -/
def baseState (ms : List NavModule) : KNState :=
  { modules := ms, currentModuleIx := 0, exiting := false, keyboardReset := false,
    isClickingChart := false, pointerIsOverChart := false, tabbingInBackwards := false,
    focusElement := false, hasExitAnchor := true, containerTabindex := true,
    subs := 7, focused := FocusLoc.outside, active := [], trace := [] }

/-- Concrete module: always valid, full capabilities, run answers next. -/
def cmA : NavModule := ⟨0, some true, true, true, fun _ => Response.next⟩

/-- Concrete module: always valid, full capabilities, run answers success. -/
def cmB : NavModule := ⟨1, some true, true, true, fun _ => Response.success⟩

/-- Concrete module: validate present and failing. -/
def cmInv : NavModule := ⟨2, some false, true, true, fun _ => Response.noResponse⟩

/-- Concrete module: valid (validate absent) but without an init capability. -/
def cmNoInit : NavModule := ⟨3, none, false, true, fun _ => Response.noResponse⟩

/-- State reached from a fresh coordinator over two valid modules by a focus
entry from outside, a keydown whose run answers next, and a second focus
entry from outside. -/
def twoActiveState : KNState :=
  onFocusFn (onKeydownFn (onFocusFn (baseState [cmA, cmB]) false) 9) false

/-- Fuel a move call needs from index ix over a sequence of the given length:
the number of indices the skip loop can still visit in direction d, plus
slack for the landing or exit step. -/
def fuelNeed (ix : Int) (len : Nat) (d : Int) : Nat :=
  if 0 < d then ((len : Int) - ix).toNat else (ix + 1).toNat

/-- A coordinator over two valid modules whose current index is one, as
produced for instance by a move that landed on the second module. -/
def ixOneState : KNState :=
  { baseState [cmA, cmB] with currentModuleIx := 1 }

/-- A fresh coordinator over a valid module followed by a valid module that
lacks the init capability. -/
def noInitTailState : KNState :=
  baseState [cmA, cmNoInit]

/-- A fresh coordinator over a valid module without init followed by an
invalid module, the shape that exercises the backward re-entry skip. -/
def noInitHeadState : KNState :=
  baseState [cmNoInit, cmInv]

/-- The state of the coordinator right before the backward re-entry handler
examines the last module: backward tab flag consumed, exiting consumed by the
inline container focus, focus redirected to the container, the redirect and
preventDefault recorded, and the current index primed at the last module. -/
def backwardPrimed (s : KNState) : KNState :=
  { s with tabbingInBackwards := false, exiting := false,
           focused := FocusLoc.container,
           trace := s.trace ++ [Action.focusContainer] ++ [Action.preventDefault],
           currentModuleIx := (s.modules.length : Int) - 1 }

/-- The actions a move call can append: terminate and border removal from the
entry phase, init on the landing module, and the exit epilogue actions. In
particular a move never appends a run or a preventDefault action. -/
def MoveDeltaAction (a : Action) : Prop :=
  (∃ i, a = Action.termM i) ∨ a = Action.removeBorder ∨ a = Action.progExit ∨
    a = Action.focusAnchor ∨ a = Action.focusContainer ∨ ∃ j i dd, a = Action.initM j i dd

end KeyboardNav

namespace KeyboardNav

theorem getAt_nil (i : Int) : getAt [] i = none := by
  simp [getAt]

theorem getAt_some_bounds {l : List NavModule} {i : Int} {m : NavModule}
    (h : getAt l i = some m) : 0 ≤ i ∧ i < (l.length : Int) := by
  unfold getAt at h
  split at h
  · rename_i h0
    rcases List.get?_eq_some.mp h with ⟨hlt, -⟩
    omega
  · exact absurd h (by simp)

theorem getAt_isSome_of_bounds {l : List NavModule} {i : Int}
    (h0 : 0 ≤ i) (h1 : i < (l.length : Int)) : ∃ m, getAt l i = some m := by
  unfold getAt
  rw [if_pos h0]
  have hlt : i.toNat < l.length := by omega
  rcases List.get?_eq_get hlt with h
  exact ⟨_, h⟩

theorem getAt_ne_nil {l : List NavModule} {i : Int} {m : NavModule}
    (h : getAt l i = some m) : l ≠ [] := by
  intro he
  subst he
  simp [getAt_nil] at h

theorem onFocus_of_exiting {s : KNState} (h : s.exiting = true) (b : Bool) :
    onFocusFn s b = { s with exiting := false } := by
  simp [onFocusFn, h]

theorem anchorFocus_of_exiting {s : KNState} (h : s.exiting = true) (b : Bool) :
    anchorFocusFn s b = anchorFocusElse s := by
  simp [anchorFocusFn, h]

theorem moveExitPath_currentModuleIx (s : KNState) (d : Int) :
    (moveExitPath s d).currentModuleIx = 0 := by
  simp only [moveExitPath, addAction, anchorFocusElse]
  split_ifs <;> simp [onFocus_of_exiting]

theorem moveExitPath_modules (s : KNState) (d : Int) :
    (moveExitPath s d).modules = s.modules := by
  simp only [moveExitPath, addAction, anchorFocusElse]
  split_ifs <;> simp [onFocus_of_exiting]

theorem moveExitPath_active (s : KNState) (d : Int) :
    (moveExitPath s d).active = s.active := by
  simp only [moveExitPath, addAction, anchorFocusElse]
  split_ifs <;> simp [onFocus_of_exiting]

theorem moveExitPath_focused (s : KNState) (d : Int) :
    (moveExitPath s d).focused =
      (if d > 0 then FocusLoc.anchor else FocusLoc.container) := by
  simp only [moveExitPath, addAction, anchorFocusElse]
  split_ifs <;> simp [onFocus_of_exiting]

theorem moveExitPath_trace (s : KNState) (d : Int) :
    ∃ t, (moveExitPath s d).trace = s.trace ++ t ∧ Action.progExit ∈ t ∧
      ∀ a ∈ t, a = Action.progExit ∨ a = Action.focusAnchor ∨ a = Action.focusContainer := by
  simp only [moveExitPath, addAction, anchorFocusElse]
  split_ifs
  · exact ⟨[Action.progExit, Action.focusAnchor], by simp, by simp, by simp⟩
  · exact ⟨[Action.progExit, Action.focusAnchor], by simp, by simp, by simp⟩
  · refine ⟨[Action.progExit, Action.focusContainer], ?_, by simp, by simp⟩
    rw [onFocus_of_exiting rfl]
    simp

theorem moveEnter_modules (s : KNState) (d : Int) :
    (moveEnter s d).modules = s.modules := by
  cases hm : getAt s.modules s.currentModuleIx <;>
    by_cases hf : s.focusElement = true <;>
      simp [moveEnter, clearFocusBorder, coordTerminate, hm, hf]

theorem moveEnter_currentModuleIx (s : KNState) (d : Int) :
    (moveEnter s d).currentModuleIx = s.currentModuleIx + d := by
  cases hm : getAt s.modules s.currentModuleIx <;>
    by_cases hf : s.focusElement = true <;>
      simp [moveEnter, clearFocusBorder, coordTerminate, hm, hf]

theorem moveEnter_active (s : KNState) (d : Int) :
    (moveEnter s d).active =
      (match getAt s.modules s.currentModuleIx with
       | some m => s.active.erase m.id
       | none => s.active) := by
  cases hm : getAt s.modules s.currentModuleIx <;>
    by_cases hf : s.focusElement = true <;>
      simp [moveEnter, clearFocusBorder, coordTerminate, hm, hf]

theorem moveEnter_trace (s : KNState) (d : Int) :
    ∃ t, (moveEnter s d).trace = s.trace ++ t ∧
      ∀ a ∈ t, (∃ i, a = Action.termM i) ∨ a = Action.removeBorder := by
  cases hm : getAt s.modules s.currentModuleIx
  · by_cases hf : s.focusElement = true
    · exact ⟨[Action.removeBorder],
        by simp [moveEnter, clearFocusBorder, coordTerminate, hm, hf], by simp⟩
    · exact ⟨[], by simp [moveEnter, clearFocusBorder, coordTerminate, hm, hf], by simp⟩
  · rename_i cur
    by_cases ht : cur.hasTerminate <;> by_cases hf : s.focusElement = true
    · exact ⟨[Action.termM cur.id, Action.removeBorder],
        by simp [moveEnter, clearFocusBorder, coordTerminate, hm, hf, ht], by simp⟩
    · exact ⟨[Action.termM cur.id],
        by simp [moveEnter, clearFocusBorder, coordTerminate, hm, hf, ht], by simp⟩
    · exact ⟨[Action.removeBorder],
        by simp [moveEnter, clearFocusBorder, coordTerminate, hm, hf, ht], by simp⟩
    · exact ⟨[], by simp [moveEnter, clearFocusBorder, coordTerminate, hm, hf, ht], by simp⟩

theorem moveAux_modules :
    ∀ fuel (s : KNState) (d : Int) (s' : KNState) (b : Bool),
      moveAux fuel s d = some (s', b) → s'.modules = s.modules := by
  intro fuel
  induction fuel with
  | zero => intro s d s' b h; simp [moveAux] at h
  | succ fuel ih =>
    intro s d s' b h
    rw [moveAux] at h
    split at h
    · split_ifs at h with h1 h2
      · exact (ih _ _ _ _ h).trans (moveEnter_modules s d)
      · rw [Option.some_inj] at h
        cases h
        simp [doInit, moveEnter_modules]
      · rw [Option.some_inj] at h
        cases h
        rw [moveExitPath_modules, moveEnter_modules]
    · rw [Option.some_inj] at h
      cases h
      rw [moveExitPath_modules, moveEnter_modules]

theorem moveAux_trace_mono :
    ∀ fuel (s : KNState) (d : Int) (s' : KNState) (b : Bool),
      moveAux fuel s d = some (s', b) → ∃ t, s'.trace = s.trace ++ t := by
  intro fuel
  induction fuel with
  | zero => intro s d s' b h; simp [moveAux] at h
  | succ fuel ih =>
    intro s d s' b h
    rw [moveAux] at h
    rcases moveEnter_trace s d with ⟨t0, ht0, -⟩
    split at h
    · rename_i m hm
      split_ifs at h with h1 h2
      · rcases ih _ _ _ _ h with ⟨t1, ht1⟩
        exact ⟨t0 ++ t1, by rw [ht1, ht0, List.append_assoc]⟩
      · rw [Option.some_inj] at h
        cases h
        exact ⟨t0 ++ [Action.initM (moveEnter s d).currentModuleIx m.id d], by
          simp [doInit, ht0]⟩
      · rw [Option.some_inj] at h
        cases h
        rcases moveExitPath_trace (moveEnter s d) d with ⟨t1, ht1, -, -⟩
        exact ⟨t0 ++ t1, by rw [ht1, ht0, List.append_assoc]⟩
    · rw [Option.some_inj] at h
      cases h
      rcases moveExitPath_trace (moveEnter s d) d with ⟨t1, ht1, -, -⟩
      exact ⟨t0 ++ t1, by rw [ht1, ht0, List.append_assoc]⟩

theorem mem_moveEnter_trace {s : KNState} {d : Int} {a : Action}
    (h : a ∈ (moveEnter s d).trace)
    (hno : (∀ i, a ≠ Action.termM i) ∧ a ≠ Action.removeBorder) : a ∈ s.trace := by
  rcases moveEnter_trace s d with ⟨t, ht, hchar⟩
  rw [ht, List.mem_append] at h
  rcases h with h | h
  · exact h
  · rcases hchar a h with ⟨i, hi⟩ | hi
    · exact absurd hi (hno.1 i)
    · exact absurd hi hno.2

theorem mem_moveExitPath_trace {s : KNState} {d : Int} {a : Action}
    (h : a ∈ (moveExitPath s d).trace)
    (hno : a ≠ Action.progExit ∧ a ≠ Action.focusAnchor ∧ a ≠ Action.focusContainer) :
    a ∈ s.trace := by
  rcases moveExitPath_trace s d with ⟨t, ht, -, hchar⟩
  rw [ht, List.mem_append] at h
  rcases h with h | h
  · exact h
  · rcases hchar a h with hi | hi | hi
    · exact absurd hi hno.1
    · exact absurd hi hno.2.1
    · exact absurd hi hno.2.2

theorem moveAux_pd_mem :
    ∀ fuel (s : KNState) (d : Int) (s' : KNState) (b : Bool),
      moveAux fuel s d = some (s', b) →
      Action.preventDefault ∈ s'.trace → Action.preventDefault ∈ s.trace := by
  intro fuel
  induction fuel with
  | zero => intro s d s' b h; simp [moveAux] at h
  | succ fuel ih =>
    intro s d s' b h hmem
    rw [moveAux] at h
    split at h
    · rename_i m hm
      split_ifs at h with h1 h2
      · exact mem_moveEnter_trace (ih _ _ _ _ h hmem) (by simp)
      · rw [Option.some_inj] at h
        cases h
        simp only [doInit, List.mem_append] at hmem
        rcases hmem with hmem | hmem
        · exact mem_moveEnter_trace hmem (by simp)
        · simp at hmem
      · rw [Option.some_inj] at h
        cases h
        exact mem_moveEnter_trace (mem_moveExitPath_trace hmem (by simp)) (by simp)
    · rw [Option.some_inj] at h
      cases h
      exact mem_moveEnter_trace (mem_moveExitPath_trace hmem (by simp)) (by simp)

theorem moveAux_initM_mem :
    ∀ fuel (s : KNState) (d : Int) (s' : KNState) (b : Bool) (j : Int) (mid : Nat) (dd : Int),
      moveAux fuel s d = some (s', b) →
      Action.initM j mid dd ∈ s'.trace →
      Action.initM j mid dd ∈ s.trace ∨
        ∃ m, getAt s.modules j = some m ∧ m.id = mid ∧
          m.validate ≠ some false ∧ m.hasInit = true ∧ dd = d := by
  intro fuel
  induction fuel with
  | zero => intro s d s' b j mid dd h; simp [moveAux] at h
  | succ fuel ih =>
    intro s d s' b j mid dd h hmem
    rw [moveAux] at h
    split at h
    · rename_i m hm
      split_ifs at h with h1 h2
      · rcases ih _ _ _ _ _ _ _ h hmem with hin | ⟨m', hm', rest⟩
        · exact Or.inl (mem_moveEnter_trace hin (by simp))
        · rw [moveEnter_modules] at hm'
          exact Or.inr ⟨m', hm', rest⟩
      · rw [Option.some_inj] at h
        cases h
        simp only [doInit, List.mem_append] at hmem
        rcases hmem with hmem | hmem
        · exact Or.inl (mem_moveEnter_trace hmem (by simp))
        · simp only [List.mem_singleton, Action.initM.injEq] at hmem
          rcases hmem with ⟨rfl, rfl, rfl⟩
          rw [moveEnter_modules] at hm
          exact Or.inr ⟨m, hm, rfl, h1, h2, rfl⟩
      · rw [Option.some_inj] at h
        cases h
        exact Or.inl (mem_moveEnter_trace (mem_moveExitPath_trace hmem (by simp)) (by simp))
    · rw [Option.some_inj] at h
      cases h
      exact Or.inl (mem_moveEnter_trace (mem_moveExitPath_trace hmem (by simp)) (by simp))

theorem moveAux_false_props :
    ∀ fuel (s : KNState) (d : Int) (s' : KNState),
      moveAux fuel s d = some (s', false) →
      s'.currentModuleIx = 0 ∧
      s'.focused = (if d > 0 then FocusLoc.anchor else FocusLoc.container) ∧
      Action.progExit ∈ s'.trace := by
  intro fuel
  induction fuel with
  | zero => intro s d s' h; simp [moveAux] at h
  | succ fuel ih =>
    intro s d s' h
    rw [moveAux] at h
    split at h
    · rename_i m hm
      split_ifs at h with h1 h2
      · exact ih _ _ _ h
      · rw [Option.some_inj, Prod.mk.injEq] at h
        exact absurd h.2 (by simp)
      · rw [Option.some_inj, Prod.mk.injEq] at h
        obtain ⟨h3, -⟩ := h
        subst h3
        rcases moveExitPath_trace (moveEnter s d) d with ⟨t, ht, hpe, -⟩
        exact ⟨moveExitPath_currentModuleIx _ _, moveExitPath_focused _ _,
          by rw [ht, List.mem_append]; exact Or.inr hpe⟩
    · rw [Option.some_inj, Prod.mk.injEq] at h
      obtain ⟨h3, -⟩ := h
      subst h3
      rcases moveExitPath_trace (moveEnter s d) d with ⟨t, ht, hpe, -⟩
      exact ⟨moveExitPath_currentModuleIx _ _, moveExitPath_focused _ _,
        by rw [ht, List.mem_append]; exact Or.inr hpe⟩

theorem getAt_neg {l : List NavModule} {i : Int} (h : i < 0) : getAt l i = none := by
  unfold getAt
  rw [if_neg (by omega)]

theorem getAt_of_ge {l : List NavModule} {i : Int} (h : (l.length : Int) ≤ i) :
    getAt l i = none := by
  unfold getAt
  split
  · exact List.get?_eq_none.mpr (by omega)
  · rfl

theorem moveAux_isSome :
    ∀ fuel (s : KNState) (d : Int), (d = 1 ∨ d = -1) →
      fuelNeed s.currentModuleIx s.modules.length d + 2 ≤ fuel →
      ∃ r, moveAux fuel s d = some r := by
  intro fuel
  induction fuel with
  | zero => intro s d hd hf; exact absurd hf (by omega)
  | succ fuel ih =>
    intro s d hd hf
    rw [moveAux]
    cases hm : getAt (moveEnter s d).modules (moveEnter s d).currentModuleIx with
    | none => exact ⟨(moveExitPath (moveEnter s d) d, false), by simp [hm]⟩
    | some m =>
      by_cases h1 : m.validate = some false
      · have hb := getAt_some_bounds hm
        rw [moveEnter_modules, moveEnter_currentModuleIx] at hb
        have hn : fuelNeed (moveEnter s d).currentModuleIx (moveEnter s d).modules.length d + 2 ≤ fuel := by
          rw [moveEnter_modules, moveEnter_currentModuleIx]
          unfold fuelNeed at hf ⊢
          rcases hd with rfl | rfl
          · rw [if_pos (by omega)] at hf ⊢
            omega
          · rw [if_neg (by omega)] at hf ⊢
            omega
        rcases ih (moveEnter s d) d hd hn with ⟨r, hr⟩
        exact ⟨r, by simp [hm, h1, hr]⟩
      · by_cases h2 : m.hasInit = true
        · exact ⟨(doInit (moveEnter s d) (moveEnter s d).currentModuleIx m d, true),
            by simp [hm, h1, h2]⟩
        · exact ⟨(moveExitPath (moveEnter s d) d, false), by simp [hm, h1, h2]⟩

theorem move_defined (s : KNState) (d : Int) (hd : d = 1 ∨ d = -1) :
    ∃ r, moveAux (moveFuel s) s d = some r := by
  rcases hd with rfl | rfl
  · by_cases hix : -1 ≤ s.currentModuleIx
    · refine moveAux_isSome _ s 1 (Or.inl rfl) ?_
      unfold fuelNeed moveFuel
      rw [if_pos (by omega)]
      omega
    · rw [show moveFuel s = s.modules.length + 2 + 1 from rfl, moveAux]
      have hcand : getAt (moveEnter s 1).modules (moveEnter s 1).currentModuleIx = none := by
        rw [moveEnter_modules, moveEnter_currentModuleIx]
        exact getAt_neg (by omega)
      exact ⟨(moveExitPath (moveEnter s 1) 1, false), by simp [hcand]⟩
  · by_cases hix : s.currentModuleIx ≤ (s.modules.length : Int)
    · refine moveAux_isSome _ s (-1) (Or.inr rfl) ?_
      unfold fuelNeed moveFuel
      rw [if_neg (by omega)]
      omega
    · rw [show moveFuel s = s.modules.length + 2 + 1 from rfl, moveAux]
      have hcand : getAt (moveEnter s (-1)).modules (moveEnter s (-1)).currentModuleIx = none := by
        rw [moveEnter_modules, moveEnter_currentModuleIx]
        exact getAt_of_ge (by omega)
      exact ⟨(moveExitPath (moveEnter s (-1)) (-1), false), by simp [hcand]⟩

theorem move_eq {s : KNState} {d : Int} {r : KNState × Bool}
    (h : moveAux (moveFuel s) s d = some r) : move s d = r := by
  simp [move, h]

theorem inDirB_one {ix j : Int} : inDirB ix 1 j = true ↔ ix < j := by
  simp [inDirB]

theorem inDirB_negOne {ix j : Int} : inDirB ix (-1) j = true ↔ j < ix := by
  norm_num [inDirB]

theorem betweenB_one {ix j k : Int} : betweenB ix 1 j k = true ↔ ix < k ∧ k < j := by
  simp [betweenB]

theorem betweenB_negOne {ix j k : Int} : betweenB ix (-1) j k = true ↔ j < k ∧ k < ix := by
  norm_num [betweenB]

theorem moveAux_true_landing :
    ∀ fuel (s : KNState) (d : Int) (s' : KNState),
      (d = 1 ∨ d = -1) →
      moveAux fuel s d = some (s', true) →
      ∃ j m, getAt s.modules j = some m ∧ inDirB s.currentModuleIx d j = true ∧
        m.validate ≠ some false ∧ m.hasInit = true ∧
        (∀ k, betweenB s.currentModuleIx d j k = true →
          ∃ mk, getAt s.modules k = some mk ∧ mk.validate = some false) ∧
        s'.currentModuleIx = j ∧ Action.initM j m.id d ∈ s'.trace := by
  intro fuel
  induction fuel with
  | zero => intro s d s' hd h; simp [moveAux] at h
  | succ fuel ih =>
    intro s d s' hd h
    rw [moveAux] at h
    split at h
    · rename_i m hm
      rw [moveEnter_modules, moveEnter_currentModuleIx] at hm
      split_ifs at h with h1 h2
      · rcases ih _ _ _ hd h with ⟨j, m', hj, hdir, hval, hinit, hbet, hix, htr⟩
        simp only [moveEnter_modules, moveEnter_currentModuleIx] at hj hdir hbet
        refine ⟨j, m', hj, ?_, hval, hinit, ?_, hix, htr⟩
        · rcases hd with rfl | rfl
          · rw [inDirB_one] at hdir ⊢
            omega
          · rw [inDirB_negOne] at hdir ⊢
            omega
        · intro k hk
          rcases hd with rfl | rfl
          · rw [betweenB_one] at hk
            by_cases hkc : k = s.currentModuleIx + 1
            · exact ⟨m, hkc ▸ hm, h1⟩
            · exact hbet k (by rw [betweenB_one]; omega)
          · rw [betweenB_negOne] at hk
            by_cases hkc : k = s.currentModuleIx + (-1)
            · exact ⟨m, hkc ▸ hm, h1⟩
            · exact hbet k (by rw [betweenB_negOne]; omega)
      · rw [Option.some_inj, Prod.mk.injEq] at h
        obtain ⟨h3, -⟩ := h
        subst h3
        refine ⟨s.currentModuleIx + d, m, hm, ?_, h1, h2, ?_, ?_, ?_⟩
        · rcases hd with rfl | rfl
          · rw [inDirB_one]; omega
          · rw [inDirB_negOne]; omega
        · intro k hk
          rcases hd with rfl | rfl
          · rw [betweenB_one] at hk; omega
          · rw [betweenB_negOne] at hk; omega
        · simp [doInit, moveEnter_currentModuleIx]
        · simp [doInit, moveEnter_currentModuleIx]
      · rw [Option.some_inj, Prod.mk.injEq] at h
        exact absurd h.2 (by simp)
    · rw [Option.some_inj, Prod.mk.injEq] at h
      exact absurd h.2 (by simp)

theorem moveAux_reach :
    ∀ fuel (s : KNState) (d : Int) (j : Int) (m : NavModule),
      (d = 1 ∨ d = -1) →
      fuelNeed s.currentModuleIx s.modules.length d + 2 ≤ fuel →
      getAt s.modules j = some m →
      inDirB s.currentModuleIx d j = true →
      (∀ k, betweenB s.currentModuleIx d j k = true →
        ∃ mk, getAt s.modules k = some mk ∧ mk.validate = some false) →
      m.validate ≠ some false →
      (m.hasInit = true →
        ∃ s', moveAux fuel s d = some (s', true) ∧ s'.currentModuleIx = j ∧
          Action.initM j m.id d ∈ s'.trace) ∧
      (m.hasInit = false → ∃ s', moveAux fuel s d = some (s', false)) := by
  intro fuel
  induction fuel with
  | zero => intro s d j m hd hf; exact absurd hf (by omega)
  | succ fuel ih =>
    intro s d j m hd hf hj hdir hbet hval
    by_cases hjc : j = s.currentModuleIx + d
    · have hm' : getAt (moveEnter s d).modules (moveEnter s d).currentModuleIx = some m := by
        rw [moveEnter_modules, moveEnter_currentModuleIx, ← hjc]
        exact hj
      constructor
      · intro hinit
        refine ⟨doInit (moveEnter s d) (moveEnter s d).currentModuleIx m d, ?_, ?_, ?_⟩
        · rw [moveAux]
          simp [hm', hval, hinit]
        · simp only [doInit]
          rw [moveEnter_currentModuleIx]
          omega
        · simp only [doInit]
          have : (moveEnter s d).currentModuleIx = j := by
            rw [moveEnter_currentModuleIx]; omega
          rw [this]
          simp
      · intro hnoinit
        refine ⟨moveExitPath (moveEnter s d) d, ?_⟩
        rw [moveAux]
        simp [hm', hval, hnoinit]
    · have hcand : ∃ mc, getAt s.modules (s.currentModuleIx + d) = some mc ∧
          mc.validate = some false := by
        apply hbet
        rcases hd with rfl | rfl
        · rw [inDirB_one] at hdir
          rw [betweenB_one]
          omega
        · rw [inDirB_negOne] at hdir
          rw [betweenB_negOne]
          omega
      rcases hcand with ⟨mc, hc, hcinv⟩
      have hm' : getAt (moveEnter s d).modules (moveEnter s d).currentModuleIx = some mc := by
        rw [moveEnter_modules, moveEnter_currentModuleIx]
        exact hc
      have hbounds := getAt_some_bounds hc
      have hfuel' : fuelNeed (moveEnter s d).currentModuleIx (moveEnter s d).modules.length d
          + 2 ≤ fuel := by
        rw [moveEnter_modules, moveEnter_currentModuleIx]
        unfold fuelNeed at hf ⊢
        rcases hd with rfl | rfl
        · rw [if_pos (by omega)] at hf ⊢
          omega
        · rw [if_neg (by omega)] at hf ⊢
          omega
      have hj' : getAt (moveEnter s d).modules j = some m := by
        rw [moveEnter_modules]; exact hj
      have hdir' : inDirB (moveEnter s d).currentModuleIx d j = true := by
        rw [moveEnter_currentModuleIx]
        rcases hd with rfl | rfl
        · rw [inDirB_one] at hdir ⊢
          omega
        · rw [inDirB_negOne] at hdir ⊢
          omega
      have hbet' : ∀ k, betweenB (moveEnter s d).currentModuleIx d j k = true →
          ∃ mk, getAt (moveEnter s d).modules k = some mk ∧ mk.validate = some false := by
        intro k hk
        rw [moveEnter_currentModuleIx] at hk
        rw [moveEnter_modules]
        apply hbet
        rcases hd with rfl | rfl
        · rw [betweenB_one] at hk ⊢
          omega
        · rw [betweenB_negOne] at hk ⊢
          omega
      have hrec := ih (moveEnter s d) d j m hd hfuel' hj' hdir' hbet' hval
      constructor
      · intro hinit
        rcases hrec.1 hinit with ⟨s', hs', hix, htr⟩
        refine ⟨s', ?_, hix, htr⟩
        rw [moveAux]
        simp [hm', hcinv, hs']
      · intro hnoinit
        rcases hrec.2 hnoinit with ⟨s', hs'⟩
        refine ⟨s', ?_⟩
        rw [moveAux]
        simp [hm', hcinv, hs']

theorem moveEnter_active_empty {s : KNState} (d : Int)
    (h : s.active = [] ∨ ∃ m, getAt s.modules s.currentModuleIx = some m ∧ s.active = [m.id]) :
    (moveEnter s d).active = [] := by
  rw [moveEnter_active]
  rcases h with h | ⟨m, hm, hact⟩
  · cases hg : getAt s.modules s.currentModuleIx <;> simp [h]
  · rw [hm, hact]
    simp

theorem moveAux_act :
    ∀ fuel (s : KNState) (d : Int) (s' : KNState) (b : Bool),
      (s.active = [] ∨ ∃ m, getAt s.modules s.currentModuleIx = some m ∧ s.active = [m.id]) →
      moveAux fuel s d = some (s', b) →
      (b = true ∧ ∃ m, getAt s'.modules s'.currentModuleIx = some m ∧ s'.active = [m.id]) ∨
      (b = false ∧ s'.active = [] ∧ s'.currentModuleIx = 0) := by
  intro fuel
  induction fuel with
  | zero => intro s d s' b hpre h; simp [moveAux] at h
  | succ fuel ih =>
    intro s d s' b hpre h
    have hCempty : (moveEnter s d).active = [] := moveEnter_active_empty d hpre
    rw [moveAux] at h
    split at h
    · rename_i m hm
      split_ifs at h with h1 h2
      · exact ih _ _ _ _ (Or.inl hCempty) h
      · rw [Option.some_inj, Prod.mk.injEq] at h
        obtain ⟨h3, h4⟩ := h
        subst h3
        refine Or.inl ⟨h4.symm, m, ?_, ?_⟩
        · simpa only [doInit] using hm
        · simp [doInit, insertActive, hCempty]
      · rw [Option.some_inj, Prod.mk.injEq] at h
        obtain ⟨h3, h4⟩ := h
        subst h3
        exact Or.inr ⟨h4.symm, by rw [moveExitPath_active]; exact hCempty,
          moveExitPath_currentModuleIx _ _⟩
    · rw [Option.some_inj, Prod.mk.injEq] at h
      obtain ⟨h3, h4⟩ := h
      subst h3
      exact Or.inr ⟨h4.symm, by rw [moveExitPath_active]; exact hCempty,
        moveExitPath_currentModuleIx _ _⟩

theorem moveAux_delta :
    ∀ fuel (s : KNState) (d : Int) (s' : KNState) (b : Bool),
      moveAux fuel s d = some (s', b) →
      ∃ t, s'.trace = s.trace ++ t ∧ ∀ a ∈ t, MoveDeltaAction a := by
  intro fuel
  induction fuel with
  | zero => intro s d s' b h; simp [moveAux] at h
  | succ fuel ih =>
    intro s d s' b h
    rcases moveEnter_trace s d with ⟨t0, ht0, hc0⟩
    have hc0' : ∀ a ∈ t0, MoveDeltaAction a := by
      intro a ha
      rcases hc0 a ha with ⟨i, hi⟩ | hi
      · exact Or.inl ⟨i, hi⟩
      · exact Or.inr (Or.inl hi)
    rw [moveAux] at h
    split at h
    · rename_i m hm
      split_ifs at h with h1 h2
      · rcases ih _ _ _ _ h with ⟨t1, ht1, hc1⟩
        refine ⟨t0 ++ t1, by rw [ht1, ht0, List.append_assoc], ?_⟩
        intro a ha
        rcases List.mem_append.mp ha with ha | ha
        · exact hc0' a ha
        · exact hc1 a ha
      · rw [Option.some_inj, Prod.mk.injEq] at h
        obtain ⟨h3, -⟩ := h
        subst h3
        refine ⟨t0 ++ [Action.initM (moveEnter s d).currentModuleIx m.id d],
          by simp [doInit, ht0], ?_⟩
        intro a ha
        rcases List.mem_append.mp ha with ha | ha
        · exact hc0' a ha
        · simp only [List.mem_singleton] at ha
          exact Or.inr (Or.inr (Or.inr (Or.inr (Or.inr ⟨_, _, _, ha⟩))))
      · rw [Option.some_inj, Prod.mk.injEq] at h
        obtain ⟨h3, -⟩ := h
        subst h3
        rcases moveExitPath_trace (moveEnter s d) d with ⟨t1, ht1, -, hc1⟩
        refine ⟨t0 ++ t1, by rw [ht1, ht0, List.append_assoc], ?_⟩
        intro a ha
        rcases List.mem_append.mp ha with ha | ha
        · exact hc0' a ha
        · rcases hc1 a ha with hi | hi | hi
          · exact Or.inr (Or.inr (Or.inl hi))
          · exact Or.inr (Or.inr (Or.inr (Or.inl hi)))
          · exact Or.inr (Or.inr (Or.inr (Or.inr (Or.inl hi))))
    · rw [Option.some_inj, Prod.mk.injEq] at h
      obtain ⟨h3, -⟩ := h
      subst h3
      rcases moveExitPath_trace (moveEnter s d) d with ⟨t1, ht1, -, hc1⟩
      refine ⟨t0 ++ t1, by rw [ht1, ht0, List.append_assoc], ?_⟩
      intro a ha
      rcases List.mem_append.mp ha with ha | ha
      · exact hc0' a ha
      · rcases hc1 a ha with hi | hi | hi
        · exact Or.inr (Or.inr (Or.inl hi))
        · exact Or.inr (Or.inr (Or.inr (Or.inl hi)))
        · exact Or.inr (Or.inr (Or.inr (Or.inr (Or.inl hi))))

theorem move_delta (s : KNState) (d : Int) :
    ∃ t, (move s d).1.trace = s.trace ++ t ∧ ∀ a ∈ t, MoveDeltaAction a := by
  cases h : moveAux (moveFuel s) s d with
  | none => exact ⟨[], by simp [move, h], by simp⟩
  | some r =>
    rw [move_eq h]
    exact moveAux_delta _ _ _ _ _ h

theorem move_modules (s : KNState) (d : Int) : (move s d).1.modules = s.modules := by
  cases h : moveAux (moveFuel s) s d with
  | none => simp [move, h]
  | some r =>
    rw [move_eq h]
    exact moveAux_modules _ _ _ _ _ h

theorem move_pd_mem {s : KNState} {d : Int}
    (h : Action.preventDefault ∈ (move s d).1.trace) : Action.preventDefault ∈ s.trace := by
  cases hx : moveAux (moveFuel s) s d with
  | none => rw [move, hx] at h; exact h
  | some r =>
    rw [move_eq hx] at h
    exact moveAux_pd_mem _ _ _ _ _ hx h

theorem move_initM_mem {s : KNState} {d j : Int} {mid : Nat} {dd : Int}
    (h : Action.initM j mid dd ∈ (move s d).1.trace) :
    Action.initM j mid dd ∈ s.trace ∨
      ∃ m, getAt s.modules j = some m ∧ m.id = mid ∧
        m.validate ≠ some false ∧ m.hasInit = true ∧ dd = d := by
  cases hx : moveAux (moveFuel s) s d with
  | none => rw [move, hx] at h; exact Or.inl h
  | some r =>
    rw [move_eq hx] at h
    exact moveAux_initM_mem _ _ _ _ _ _ _ _ hx h

theorem move_no_init_on_invalid {s : KNState} {d j : Int} {m : NavModule} {dd : Int}
    (hj : getAt s.modules j = some m) (hval : m.validate = some false)
    (hmem : Action.initM j m.id dd ∈ (move s d).1.trace) :
    Action.initM j m.id dd ∈ s.trace := by
  rcases move_initM_mem hmem with h | ⟨m', hm', -, hval', -, -⟩
  · exact h
  · rw [hj, Option.some_inj] at hm'
    subst hm'
    exact absurd hval hval'

theorem move_reach (s : KNState) (d j : Int) (m : NavModule)
    (hd : d = 1 ∨ d = -1)
    (hj : getAt s.modules j = some m)
    (hdir : inDirB s.currentModuleIx d j = true)
    (hbet : ∀ k, betweenB s.currentModuleIx d j k = true →
      ∃ mk, getAt s.modules k = some mk ∧ mk.validate = some false)
    (hval : m.validate ≠ some false) :
    (m.hasInit = true → (move s d).2 = true ∧ (move s d).1.currentModuleIx = j ∧
      Action.initM j m.id d ∈ (move s d).1.trace) ∧
    (m.hasInit = false → (move s d).2 = false) := by
  have hbj := getAt_some_bounds hj
  have hfuel : fuelNeed s.currentModuleIx s.modules.length d + 2 ≤ moveFuel s := by
    unfold fuelNeed moveFuel
    rcases hd with rfl | rfl
    · rw [if_pos (by omega)]
      rw [inDirB_one] at hdir
      by_cases hc : s.currentModuleIx + 1 = j
      · omega
      · rcases hbet (s.currentModuleIx + 1) (by rw [betweenB_one]; omega) with ⟨mk, hk, -⟩
        have := getAt_some_bounds hk
        omega
    · rw [if_neg (by omega)]
      rw [inDirB_negOne] at hdir
      by_cases hc : s.currentModuleIx + (-1) = j
      · omega
      · rcases hbet (s.currentModuleIx + (-1)) (by rw [betweenB_negOne]; omega) with ⟨mk, hk, -⟩
        have := getAt_some_bounds hk
        omega
  have hres := moveAux_reach (moveFuel s) s d j m hd hfuel hj hdir hbet hval
  constructor
  · intro hinit
    rcases hres.1 hinit with ⟨s', hs', hix, htr⟩
    rw [move_eq hs']
    exact ⟨rfl, hix, htr⟩
  · intro hnoinit
    rcases hres.2 hnoinit with ⟨s', hs'⟩
    rw [move_eq hs']

theorem move_landable_iff (s : KNState) (d : Int) (hd : d = 1 ∨ d = -1) :
    (move s d).2 = true ↔ landable s.modules s.currentModuleIx d := by
  constructor
  · intro h
    rcases move_defined s d hd with ⟨⟨r1, r2⟩, hr⟩
    rw [move_eq hr] at h
    have h2 : r2 = true := h
    subst h2
    rcases moveAux_true_landing _ s d r1 hd hr with ⟨j, m, hj, hdir, hval, hinit, hbet, -, -⟩
    exact ⟨j, m, hj, hdir, hval, hinit, hbet⟩
  · rintro ⟨j, m, hj, hdir, hval, hinit, hbet⟩
    exact ((move_reach s d j m hd hj hdir hbet hval).1 hinit).1

theorem move_exit_of_noValid (s : KNState) (d : Int) (hd : d = 1 ∨ d = -1)
    (hnv : noValidInDir s.modules s.currentModuleIx d) :
    (move s d).2 = false ∧ (move s d).1.currentModuleIx = 0 ∧
    (move s d).1.focused = (if d > 0 then FocusLoc.anchor else FocusLoc.container) ∧
    Action.progExit ∈ (move s d).1.trace := by
  have hfalse : (move s d).2 = false := by
    cases hb : (move s d).2 with
    | false => rfl
    | true =>
      rcases (move_landable_iff s d hd).mp hb with ⟨j, m, hj, hdir, hval, -, -⟩
      exact absurd (hnv j m hj hdir) hval
  rcases move_defined s d hd with ⟨⟨r1, r2⟩, hr⟩
  have h2 : r2 = false := by rw [move_eq hr] at hfalse; exact hfalse
  subst h2
  rw [move_eq hr]
  exact ⟨rfl, moveAux_false_props _ s d r1 hr⟩

theorem move_act (s : KNState) (d : Int) (hd : d = 1 ∨ d = -1)
    (hpre : s.active = [] ∨ ∃ m, getAt s.modules s.currentModuleIx = some m ∧ s.active = [m.id]) :
    ((move s d).2 = true ∧ ∃ m,
      getAt (move s d).1.modules (move s d).1.currentModuleIx = some m ∧
      (move s d).1.active = [m.id]) ∨
    ((move s d).2 = false ∧ (move s d).1.active = [] ∧ (move s d).1.currentModuleIx = 0) := by
  rcases move_defined s d hd with ⟨⟨r1, r2⟩, hr⟩
  rw [move_eq hr]
  exact moveAux_act _ s d r1 r2 hpre hr

theorem onKeydown_no_module {s : KNState} (key : Nat)
    (h : getAt s.modules s.currentModuleIx = none) :
    onKeydownFn s key = { s with keyboardReset := false, exiting := false } := by
  by_cases hlen : s.modules.length = 0
  · simp [onKeydownFn, hlen]
  · simp [onKeydownFn, hlen, h]

theorem onKeydown_eq_success {s : KNState} {key : Nat} {m : NavModule}
    (hm : getAt s.modules s.currentModuleIx = some m)
    (hr : m.run key = Response.success) :
    onKeydownFn s key =
      addAction (addAction { s with keyboardReset := false, exiting := false }
        (Action.runM s.currentModuleIx m.id)) Action.preventDefault := by
  have hne : ¬ s.modules.length = 0 := fun h => getAt_ne_nil hm (List.length_eq_zero.mp h)
  simp [onKeydownFn, hne, hm, hr]

theorem onKeydown_eq_prev {s : KNState} {key : Nat} {m : NavModule}
    (hm : getAt s.modules s.currentModuleIx = some m)
    (hr : m.run key = Response.prev) :
    onKeydownFn s key =
      (if (move (addAction { s with keyboardReset := false, exiting := false }
            (Action.runM s.currentModuleIx m.id)) (-1)).2 then
        addAction (move (addAction { s with keyboardReset := false, exiting := false }
          (Action.runM s.currentModuleIx m.id)) (-1)).1 Action.preventDefault
      else
        (move (addAction { s with keyboardReset := false, exiting := false }
          (Action.runM s.currentModuleIx m.id)) (-1)).1) := by
  have hne : ¬ s.modules.length = 0 := fun h => getAt_ne_nil hm (List.length_eq_zero.mp h)
  simp [onKeydownFn, hne, hm, hr]

theorem onKeydown_eq_next {s : KNState} {key : Nat} {m : NavModule}
    (hm : getAt s.modules s.currentModuleIx = some m)
    (hr : m.run key = Response.next) :
    onKeydownFn s key =
      (if (move (addAction { s with keyboardReset := false, exiting := false }
            (Action.runM s.currentModuleIx m.id)) 1).2 then
        addAction (move (addAction { s with keyboardReset := false, exiting := false }
          (Action.runM s.currentModuleIx m.id)) 1).1 Action.preventDefault
      else
        (move (addAction { s with keyboardReset := false, exiting := false }
          (Action.runM s.currentModuleIx m.id)) 1).1) := by
  have hne : ¬ s.modules.length = 0 := fun h => getAt_ne_nil hm (List.length_eq_zero.mp h)
  simp [onKeydownFn, hne, hm, hr]

theorem onKeydown_eq_noResponse {s : KNState} {key : Nat} {m : NavModule}
    (hm : getAt s.modules s.currentModuleIx = some m)
    (hr : m.run key = Response.noResponse) :
    onKeydownFn s key =
      addAction { s with keyboardReset := false, exiting := false }
        (Action.runM s.currentModuleIx m.id) := by
  have hne : ¬ s.modules.length = 0 := fun h => getAt_ne_nil hm (List.length_eq_zero.mp h)
  simp [onKeydownFn, hne, hm, hr]

theorem onKeydown_eq_unrecognized {s : KNState} {key : Nat} {m : NavModule} {c : Nat}
    (hm : getAt s.modules s.currentModuleIx = some m)
    (hr : m.run key = Response.unrecognized c) :
    onKeydownFn s key =
      addAction { s with keyboardReset := false, exiting := false }
        (Action.runM s.currentModuleIx m.id) := by
  have hne : ¬ s.modules.length = 0 := fun h => getAt_ne_nil hm (List.length_eq_zero.mp h)
  simp [onKeydownFn, hne, hm, hr]

/-- C1: for every module sequence, start index (any state) and direction in
plus or minus one, move never delivers init to a module whose validate
returns false; and when no valid module exists in the direction of motion,
move returns failure, resets the current index to zero, enters the
programmatic exit state (records the exiting transition) and hands native
focus to the forward exit anchor for direction positive or to the widget tab
stop for direction negative. -/
theorem move_skips_invalid_and_exit_behavior (s : KNState) (d : Int)
    (hd : d = 1 ∨ d = -1) (htr : s.trace = []) :
    (∀ j m dd, getAt s.modules j = some m → m.validate = some false →
      Action.initM j m.id dd ∉ (move s d).1.trace) ∧
    (noValidInDir s.modules s.currentModuleIx d →
      (move s d).2 = false ∧ (move s d).1.currentModuleIx = 0 ∧
      Action.progExit ∈ (move s d).1.trace ∧
      (move s d).1.focused = (if d > 0 then FocusLoc.anchor else FocusLoc.container)) := by
  constructor
  · intro j m dd hj hval hmem
    have hin := move_no_init_on_invalid hj hval hmem
    rw [htr] at hin
    simp at hin
  · intro hnv
    rcases move_exit_of_noValid s d hd hnv with ⟨h1, h2, h3, h4⟩
    exact ⟨h1, h2, h4, h3⟩

/-- Witness for C1 at a one module sequence whose module fails validate:
moving forward from index zero exits with failure, index zero, the
programmatic exit record, and focus on the exit anchor. -/
theorem move_skips_invalid_and_exit_behavior_witness :
    (baseState [cmInv]).trace = [] ∧
    ((move (baseState [cmInv]) 1).2 = false ∧
     (move (baseState [cmInv]) 1).1.currentModuleIx = 0 ∧
     Action.progExit ∈ (move (baseState [cmInv]) 1).1.trace ∧
     (move (baseState [cmInv]) 1).1.focused =
       (if (1 : Int) > 0 then FocusLoc.anchor else FocusLoc.container)) :=
  ⟨rfl,
    (move_skips_invalid_and_exit_behavior (baseState [cmInv]) 1 (Or.inl rfl) rfl).2
      (by
        intro j m hj hdir
        have hb := getAt_some_bounds hj
        rw [inDirB_one] at hdir
        have h0 : (baseState [cmInv]).currentModuleIx = 0 := rfl
        have h1 : ((baseState [cmInv]).modules.length : Int) = 1 := rfl
        omega)⟩

/-- C3 counterexample: from index zero over a valid module followed by a
valid module lacking the init capability, move with direction one reaches the
init-less module but returns failure through the exit path and delivers no
init at all, while the claim demands init delivery and success there. -/
theorem move_valid_module_without_init_cex :
    (move noInitTailState 1).2 = false ∧
    (move noInitTailState 1).1.trace =
      [Action.termM 0, Action.progExit, Action.focusAnchor] := by
  decide

/-- C3 as amended: when move reaches a valid module (the first candidate in
the direction of motion, every strictly earlier candidate being present and
failing validate), it delivers init with the direction and returns success
provided the module defines init; a valid module lacking init instead makes
move return failure through the exit path, missing init is not a landable
no-op. -/
theorem move_landing_characterization (s : KNState) (d j : Int) (m : NavModule)
    (hd : d = 1 ∨ d = -1) (hj : getAt s.modules j = some m)
    (hdir : inDirB s.currentModuleIx d j = true)
    (hbet : ∀ k, betweenB s.currentModuleIx d j k = true →
      ∃ mk, getAt s.modules k = some mk ∧ mk.validate = some false)
    (hval : m.validate ≠ some false) :
    (m.hasInit = true → (move s d).2 = true ∧ (move s d).1.currentModuleIx = j ∧
      Action.initM j m.id d ∈ (move s d).1.trace) ∧
    (m.hasInit = false → (move s d).2 = false) :=
  move_reach s d j m hd hj hdir hbet hval

/-- Witness for the amended C3: moving forward from index zero over two valid
modules with init lands on the second one, delivers init with direction one
and succeeds. -/
theorem move_landing_characterization_witness :
    getAt (baseState [cmA, cmB]).modules 1 = some cmB ∧
    ((move (baseState [cmA, cmB]) 1).2 = true ∧
     (move (baseState [cmA, cmB]) 1).1.currentModuleIx = 1 ∧
     Action.initM 1 cmB.id 1 ∈ (move (baseState [cmA, cmB]) 1).1.trace) :=
  ⟨rfl,
    (move_landing_characterization (baseState [cmA, cmB]) 1 1 cmB (Or.inl rfl) rfl rfl
      (by
        intro k hk
        rw [betweenB_one] at hk
        have h0 : (baseState [cmA, cmB]).currentModuleIx = 0 := rfl
        omega)
      (by decide)).1 rfl⟩

/-- C7: for every state and direction plus or minus one, move terminates
within fuel equal to the sequence length plus three, that is at most one
entry of the recursion per module of the sequence (the skip iterations) plus
the landing or exit step; the source realizes this bounded search by direct
recursion at line 330 rather than by an explicit loop. -/
theorem move_terminates_within_fuel (s : KNState) (d : Int) (hd : d = 1 ∨ d = -1) :
    (moveAux (s.modules.length + 3) s d).isSome = true := by
  rcases move_defined s d hd with ⟨r, hr⟩
  rw [show s.modules.length + 3 = moveFuel s from rfl, hr]
  rfl

/-- Witness for C7 on the pathological all-invalid sequence of three modules:
the bounded recursion still terminates. -/
theorem move_terminates_within_fuel_witness :
    ((1 : Int) = 1 ∨ (1 : Int) = -1) ∧
    (moveAux ((baseState [cmInv, cmInv, cmInv]).modules.length + 3)
      (baseState [cmInv, cmInv, cmInv]) 1).isSome = true :=
  ⟨Or.inl rfl, move_terminates_within_fuel (baseState [cmInv, cmInv, cmInv]) 1 (Or.inl rfl)⟩

/-- C9: teardown is idempotent and clean: destroying twice equals destroying
once, and after a destroy no event subscriptions remain, the exit anchor is
removed, and the container tabindex attribute is stripped; every step of
destroy is total, so no error can be raised. -/
theorem destroy_idempotent_and_clean (s : KNState) :
    destroyFn (destroyFn s) = destroyFn s ∧ (destroyFn s).subs = 0 ∧
    (destroyFn s).hasExitAnchor = false ∧ (destroyFn s).containerTabindex = false := by
  by_cases hA : s.hasExitAnchor = true <;>
    simp [destroyFn, removeExitAnchorFn, hA]

/-- C8: a pointer up with the pointer outside the widget and the state not
already reset terminates the module at the current index (the call is
recorded when the module has terminate), clears the focus indicator, resets
the current index to zero and marks the state reset; a second pointer up on
the resulting state changes nothing, so the reset happens exactly once. -/
theorem mouseup_outside_resets_once (s : KNState)
    (h1 : s.keyboardReset = false) (h2 : s.pointerIsOverChart = false) :
    (onMouseUpFn s).currentModuleIx = 0 ∧
    (onMouseUpFn s).keyboardReset = true ∧
    (onMouseUpFn s).focusElement = false ∧
    (∀ m, getAt s.modules s.currentModuleIx = some m → m.hasTerminate = true →
      Action.termM m.id ∈ (onMouseUpFn s).trace) ∧
    onMouseUpFn (onMouseUpFn s) = onMouseUpFn s := by
  cases hm : getAt s.modules s.currentModuleIx with
  | none =>
    by_cases hf : s.focusElement = true <;>
      refine ⟨?_, ?_, ?_, ?_, ?_⟩ <;>
        simp [onMouseUpFn, clearFocusBorder, coordTerminate, h1, h2, hm, hf]
  | some m =>
    by_cases ht : m.hasTerminate = true <;> by_cases hf : s.focusElement = true <;>
      refine ⟨?_, ?_, ?_, ?_, ?_⟩ <;>
        simp [onMouseUpFn, clearFocusBorder, coordTerminate, h1, h2, hm, hf, ht]

/-- Witness for C8 on a fresh coordinator over one module: the pointer up
resets and a repeat is a no-op. -/
theorem mouseup_outside_resets_once_witness :
    (baseState [cmA]).keyboardReset = false ∧
    (baseState [cmA]).pointerIsOverChart = false ∧
    ((onMouseUpFn (baseState [cmA])).currentModuleIx = 0 ∧
     (onMouseUpFn (baseState [cmA])).keyboardReset = true ∧
     (onMouseUpFn (baseState [cmA])).focusElement = false ∧
     (∀ m, getAt (baseState [cmA]).modules (baseState [cmA]).currentModuleIx = some m →
       m.hasTerminate = true → Action.termM m.id ∈ (onMouseUpFn (baseState [cmA])).trace) ∧
     onMouseUpFn (onMouseUpFn (baseState [cmA])) = onMouseUpFn (baseState [cmA])) :=
  ⟨rfl, rfl, mouseup_outside_resets_once (baseState [cmA]) rfl rfl⟩

theorem updateContainerTabindexFn_fields (s : KNState) (enabled : Bool) :
    (updateContainerTabindexFn s enabled).currentModuleIx = s.currentModuleIx ∧
    (updateContainerTabindexFn s enabled).modules = s.modules ∧
    (updateContainerTabindexFn s enabled).hasExitAnchor = s.hasExitAnchor := by
  unfold updateContainerTabindexFn
  split_ifs <;> simp

/-- C2 counterexample: a rebuild with navigation enabled and a nonempty order
leaves the stale current index one untouched even though the rebuilt
sequence has length one, so the index is neither reset to zero nor in range
of the new sequence. -/
theorem update_nonempty_preserves_index_cex :
    (updateFn ixOneState true [[cmA]]).currentModuleIx = 1 ∧
    (updateFn ixOneState true [[cmA]]).modules.length = 1 ∧
    ¬ (updateFn ixOneState true [[cmA]]).currentModuleIx = 0 := by
  decide

/-- C2 as amended: a rebuild resets the current index to zero exactly when
navigation is disabled or the order empty, in which case the sequence is
emptied and the exit anchor removed; with navigation enabled and a nonempty
order the rebuild replaces the sequence and refreshes the exit anchor but
leaves the current index unchanged, so the index may lie outside the new
sequence. -/
theorem update_index_reset_characterization (s : KNState) (enabled : Bool)
    (order : List (List NavModule)) :
    ((enabled = false ∨ order = []) →
      (updateFn s enabled order).currentModuleIx = 0 ∧
      (updateFn s enabled order).modules = [] ∧
      (updateFn s enabled order).hasExitAnchor = false) ∧
    (enabled = true → order ≠ [] →
      (updateFn s enabled order).currentModuleIx = s.currentModuleIx ∧
      (updateFn s enabled order).modules = order.foldl (· ++ ·) [] ∧
      (updateFn s enabled order).hasExitAnchor = true) := by
  obtain ⟨hT1, hT2, hT3⟩ := updateContainerTabindexFn_fields s enabled
  constructor
  · intro h
    unfold updateFn
    split_ifs with hc
    · exfalso
      rcases h with rfl | rfl
      · simp at hc
      · simp at hc
    · by_cases hA : (updateContainerTabindexFn s enabled).hasExitAnchor = true <;>
        simp [removeExitAnchorFn, hA]
  · intro he ho
    unfold updateFn
    split_ifs with hc
    · by_cases hA : (updateContainerTabindexFn s enabled).hasExitAnchor = true <;>
        simp [updateExitAnchorFn, removeExitAnchorFn, hA, hT1]
    · exfalso
      apply hc
      subst he
      simp [List.length_eq_zero, ho]

/-- Witness for the amended C2: an enabled nonempty rebuild keeps index one;
a disabled rebuild resets it to zero. -/
theorem update_index_reset_characterization_witness :
    (updateFn ixOneState true [[cmA]]).currentModuleIx = ixOneState.currentModuleIx ∧
    (updateFn ixOneState false []).currentModuleIx = 0 :=
  ⟨((update_index_reset_characterization ixOneState true [[cmA]]).2 rfl (by simp)).1,
   ((update_index_reset_characterization ixOneState false []).1 (Or.inl rfl)).1⟩

theorem MoveDeltaAction.ne_runM {a : Action} (h : MoveDeltaAction a) (j : Int) (i : Nat) :
    a ≠ Action.runM j i := by
  rcases h with ⟨x, rfl⟩ | rfl | rfl | rfl | rfl | ⟨x, y, z, rfl⟩ <;> simp

theorem MoveDeltaAction.ne_pd {a : Action} (h : MoveDeltaAction a) :
    a ≠ Action.preventDefault := by
  rcases h with ⟨x, rfl⟩ | rfl | rfl | rfl | rfl | ⟨x, y, z, rfl⟩ <;> simp

/-- C10: onFocus never writes the current index. On entry from outside the
widget it initializes module zero while the index keeps its stale nonzero
value, and the following keydown dispatches run to the module at the stale
index, never to the freshly initialized module zero. -/
theorem onfocus_stale_current_index (s : KNState) (m0 mi : NavModule) (key : Nat)
    (hex : s.exiting = false) (htb : s.tabbingInBackwards = false)
    (hcl : s.isClickingChart = false)
    (h0 : getAt s.modules 0 = some m0)
    (hix : s.currentModuleIx ≠ 0)
    (hmi : getAt s.modules s.currentModuleIx = some mi)
    (htr : s.trace = []) :
    (onFocusFn s false).currentModuleIx = s.currentModuleIx ∧
    Action.initM 0 m0.id 1 ∈ (onFocusFn s false).trace ∧
    Action.runM s.currentModuleIx mi.id ∈ (onKeydownFn (onFocusFn s false) key).trace ∧
    Action.runM 0 m0.id ∉ (onKeydownFn (onFocusFn s false) key).trace := by
  have hs1 : onFocusFn s false = { doInit s 0 m0 1 with exiting := false } := by
    simp [onFocusFn, hex, htb, hcl, h0]
  have hixeq : (onFocusFn s false).currentModuleIx = s.currentModuleIx := by
    rw [hs1]; simp [doInit]
  have htr1 : (onFocusFn s false).trace = [Action.initM 0 m0.id 1] := by
    rw [hs1]; simp [doInit, htr]
  have hm1 : getAt (onFocusFn s false).modules (onFocusFn s false).currentModuleIx = some mi := by
    rw [hs1]
    simpa [doInit] using hmi
  have hix' : ¬ (0 = s.currentModuleIx) := fun h => hix h.symm
  refine ⟨hixeq, by rw [htr1]; simp, ?_, ?_⟩
  · cases hr : mi.run key with
    | success =>
      rw [onKeydown_eq_success hm1 hr]
      simp [addAction, htr1, hixeq]
    | prev =>
      rw [onKeydown_eq_prev hm1 hr]
      rcases move_delta (addAction { onFocusFn s false with keyboardReset := false, exiting := false } (Action.runM (onFocusFn s false).currentModuleIx mi.id)) (-1) with ⟨t, ht, -⟩
      split_ifs
      · simp only [addAction, List.mem_append] at ht ⊢
        rw [ht]
        simp [htr1, hixeq]
      · simp only [addAction, List.mem_append] at ht ⊢
        rw [ht]
        simp [htr1, hixeq]
    | next =>
      rw [onKeydown_eq_next hm1 hr]
      rcases move_delta (addAction { onFocusFn s false with keyboardReset := false, exiting := false } (Action.runM (onFocusFn s false).currentModuleIx mi.id)) 1 with ⟨t, ht, -⟩
      split_ifs
      · simp only [addAction, List.mem_append] at ht ⊢
        rw [ht]
        simp [htr1, hixeq]
      · simp only [addAction, List.mem_append] at ht ⊢
        rw [ht]
        simp [htr1, hixeq]
    | noResponse =>
      rw [onKeydown_eq_noResponse hm1 hr]
      simp [addAction, htr1, hixeq]
    | unrecognized c =>
      rw [onKeydown_eq_unrecognized hm1 hr]
      simp [addAction, htr1, hixeq]
  · cases hr : mi.run key with
    | success =>
      rw [onKeydown_eq_success hm1 hr]
      simp [addAction, htr1, hixeq, hix']
    | prev =>
      rw [onKeydown_eq_prev hm1 hr]
      rcases move_delta (addAction { onFocusFn s false with keyboardReset := false, exiting := false } (Action.runM (onFocusFn s false).currentModuleIx mi.id)) (-1) with ⟨t, ht, hchar⟩
      simp only [addAction] at ht
      intro hmem
      split_ifs at hmem
      · simp only [addAction] at hmem
        rcases List.mem_append.mp hmem with hmem | hmem
        · rw [ht] at hmem
          rcases List.mem_append.mp hmem with hmem | hmem
          · rcases List.mem_append.mp hmem with hmem | hmem
            · rw [htr1] at hmem
              simp at hmem
            · rw [hixeq] at hmem
              simp at hmem
              exact hix hmem.1.symm
          · exact (hchar _ hmem).ne_runM 0 m0.id rfl
        · simp at hmem
      · simp only [addAction] at hmem
        rw [ht] at hmem
        rcases List.mem_append.mp hmem with hmem | hmem
        · rcases List.mem_append.mp hmem with hmem | hmem
          · rw [htr1] at hmem
            simp at hmem
          · rw [hixeq] at hmem
            simp at hmem
            exact hix hmem.1.symm
        · exact (hchar _ hmem).ne_runM 0 m0.id rfl
    | next =>
      rw [onKeydown_eq_next hm1 hr]
      rcases move_delta (addAction { onFocusFn s false with keyboardReset := false, exiting := false } (Action.runM (onFocusFn s false).currentModuleIx mi.id)) 1 with ⟨t, ht, hchar⟩
      simp only [addAction] at ht
      intro hmem
      split_ifs at hmem
      · simp only [addAction] at hmem
        rcases List.mem_append.mp hmem with hmem | hmem
        · rw [ht] at hmem
          rcases List.mem_append.mp hmem with hmem | hmem
          · rcases List.mem_append.mp hmem with hmem | hmem
            · rw [htr1] at hmem
              simp at hmem
            · rw [hixeq] at hmem
              simp at hmem
              exact hix hmem.1.symm
          · exact (hchar _ hmem).ne_runM 0 m0.id rfl
        · simp at hmem
      · simp only [addAction] at hmem
        rw [ht] at hmem
        rcases List.mem_append.mp hmem with hmem | hmem
        · rcases List.mem_append.mp hmem with hmem | hmem
          · rw [htr1] at hmem
            simp at hmem
          · rw [hixeq] at hmem
            simp at hmem
            exact hix hmem.1.symm
        · exact (hchar _ hmem).ne_runM 0 m0.id rfl
    | noResponse =>
      rw [onKeydown_eq_noResponse hm1 hr]
      simp [addAction, htr1, hixeq, hix']
    | unrecognized c =>
      rw [onKeydown_eq_unrecognized hm1 hr]
      simp [addAction, htr1, hixeq, hix']

/-- Witness for C10: over two valid modules with the stale index one, a focus
entry from outside initializes module zero, keeps the index at one, and the
next keydown runs the module at index one. -/
theorem onfocus_stale_current_index_witness :
    ixOneState.currentModuleIx ≠ 0 ∧
    ((onFocusFn ixOneState false).currentModuleIx = ixOneState.currentModuleIx ∧
     Action.initM 0 cmA.id 1 ∈ (onFocusFn ixOneState false).trace ∧
     Action.runM ixOneState.currentModuleIx cmB.id ∈
       (onKeydownFn (onFocusFn ixOneState false) 9).trace ∧
     Action.runM 0 cmA.id ∉ (onKeydownFn (onFocusFn ixOneState false) 9).trace) :=
  ⟨by decide,
   onfocus_stale_current_index ixOneState cmA cmB 9 rfl rfl rfl rfl (by decide) rfl rfl⟩

/-- C4: for a keydown dispatched while the module sequence is nonempty and
the current index in range, run is called on the current module and the
response decides suppression: success suppresses and leaves the index
unchanged; prev and next trigger a move in the corresponding direction and
suppress exactly when a landable module exists in that direction (move
success); noResponse, an unrecognized response code, or an absent module
leave native handling alone, never fatally. -/
theorem onKeydown_response_dispatch (s : KNState) (key : Nat) (htr : s.trace = []) :
    (getAt s.modules s.currentModuleIx = none →
      onKeydownFn s key = { s with keyboardReset := false, exiting := false }) ∧
    (∀ m, getAt s.modules s.currentModuleIx = some m →
      Action.runM s.currentModuleIx m.id ∈ (onKeydownFn s key).trace ∧
      (m.run key = Response.success →
        Action.preventDefault ∈ (onKeydownFn s key).trace ∧
        (onKeydownFn s key).currentModuleIx = s.currentModuleIx) ∧
      (m.run key = Response.noResponse →
        Action.preventDefault ∉ (onKeydownFn s key).trace) ∧
      (∀ c, m.run key = Response.unrecognized c →
        Action.preventDefault ∉ (onKeydownFn s key).trace) ∧
      (m.run key = Response.prev →
        (Action.preventDefault ∈ (onKeydownFn s key).trace ↔
          landable s.modules s.currentModuleIx (-1))) ∧
      (m.run key = Response.next →
        (Action.preventDefault ∈ (onKeydownFn s key).trace ↔
          landable s.modules s.currentModuleIx 1))) := by
  constructor
  · intro h
    exact onKeydown_no_module key h
  · intro m hm
    refine ⟨?_, ?_, ?_, ?_, ?_, ?_⟩
    · cases hr : m.run key with
      | success =>
        rw [onKeydown_eq_success hm hr]
        simp [addAction]
      | prev =>
        rw [onKeydown_eq_prev hm hr]
        rcases move_delta (addAction { s with keyboardReset := false, exiting := false } (Action.runM s.currentModuleIx m.id)) (-1) with ⟨t, ht, -⟩
        simp only [addAction] at ht
        split_ifs <;> simp [addAction, ht]
      | next =>
        rw [onKeydown_eq_next hm hr]
        rcases move_delta (addAction { s with keyboardReset := false, exiting := false } (Action.runM s.currentModuleIx m.id)) 1 with ⟨t, ht, -⟩
        simp only [addAction] at ht
        split_ifs <;> simp [addAction, ht]
      | noResponse =>
        rw [onKeydown_eq_noResponse hm hr]
        simp [addAction]
      | unrecognized c =>
        rw [onKeydown_eq_unrecognized hm hr]
        simp [addAction]
    · intro hr
      rw [onKeydown_eq_success hm hr]
      constructor
      · simp [addAction]
      · simp [addAction]
    · intro hr
      rw [onKeydown_eq_noResponse hm hr]
      simp [addAction, htr]
    · intro c hr
      rw [onKeydown_eq_unrecognized hm hr]
      simp [addAction, htr]
    · intro hr
      rw [onKeydown_eq_prev hm hr]
      have hland : (move (addAction { s with keyboardReset := false, exiting := false } (Action.runM s.currentModuleIx m.id)) (-1)).2 = true ↔ landable s.modules s.currentModuleIx (-1) :=
        move_landable_iff (addAction { s with keyboardReset := false, exiting := false } (Action.runM s.currentModuleIx m.id)) (-1) (Or.inr rfl)
      split_ifs with hc
      · exact iff_of_true (by simp [addAction]) (hland.mp hc)
      · refine iff_of_false ?_ ?_
        · intro hpd
          have hin := move_pd_mem hpd
          simp [addAction, htr] at hin
        · intro hl
          exact hc (hland.mpr hl)
    · intro hr
      rw [onKeydown_eq_next hm hr]
      have hland : (move (addAction { s with keyboardReset := false, exiting := false } (Action.runM s.currentModuleIx m.id)) 1).2 = true ↔ landable s.modules s.currentModuleIx 1 :=
        move_landable_iff (addAction { s with keyboardReset := false, exiting := false } (Action.runM s.currentModuleIx m.id)) 1 (Or.inl rfl)
      split_ifs with hc
      · exact iff_of_true (by simp [addAction]) (hland.mp hc)
      · refine iff_of_false ?_ ?_
        · intro hpd
          have hin := move_pd_mem hpd
          simp [addAction, htr] at hin
        · intro hl
          exact hc (hland.mpr hl)

/-- Witness for C4: over two valid modules from index zero, a keydown whose
run answers next records the run call and the suppression question reduces to
the existence of a landable module forward. -/
theorem onKeydown_response_dispatch_witness :
    (baseState [cmA, cmB]).trace = [] ∧
    Action.runM (baseState [cmA, cmB]).currentModuleIx cmA.id ∈
      (onKeydownFn (baseState [cmA, cmB]) 9).trace ∧
    (Action.preventDefault ∈ (onKeydownFn (baseState [cmA, cmB]) 9).trace ↔
      landable (baseState [cmA, cmB]).modules (baseState [cmA, cmB]).currentModuleIx 1) :=
  ⟨rfl,
   ((onKeydown_response_dispatch (baseState [cmA, cmB]) 9 rfl).2 cmA rfl).1,
   ((onKeydown_response_dispatch (baseState [cmA, cmB]) 9 rfl).2 cmA rfl).2.2.2.2.2 rfl⟩

theorem anchorFocus_backward_skip (s : KNState) (hex : s.exiting = false)
    (hne : ¬ s.modules.length = 0) (mL : NavModule)
    (hmL : getAt s.modules ((s.modules.length : Int) - 1) = some mL)
    (hvL : mL.validate = some false) :
    anchorFocusFn s false = (move (backwardPrimed s) (-1)).1 := by
  simp [anchorFocusFn, hex, hne, onFocusFn, addAction, backwardPrimed, hmL, hvL]

theorem anchorFocus_backward_direct (s : KNState) (hex : s.exiting = false)
    (hne : ¬ s.modules.length = 0) (mL : NavModule)
    (hmL : getAt s.modules ((s.modules.length : Int) - 1) = some mL)
    (hvL : ¬ mL.validate = some false) :
    anchorFocusFn s false =
      doInit (backwardPrimed s) ((s.modules.length : Int) - 1) mL (-1) := by
  simp [anchorFocusFn, hex, hne, onFocusFn, addAction, backwardPrimed, hmL, hvL]

/-- C6 counterexample: the sequence holds a valid module without init
followed by an invalid module; a direct backward tab onto the exit anchor
skips the invalid tail module and reaches the valid one, but because it lacks
init the coordinator exits backward instead of initializing it, so no init at
all is delivered, while the claim demands that the last valid module be
initialized. -/
theorem backward_reentry_initless_cex :
    (∀ ix mid d, Action.initM ix mid d ∉ (anchorFocusFn noInitHeadState false).trace) ∧
    (anchorFocusFn noInitHeadState false).currentModuleIx = 0 := by
  constructor
  · intro ix mid d hmem
    have ht : (anchorFocusFn noInitHeadState false).trace =
        [Action.focusContainer, Action.preventDefault, Action.termM cmInv.id,
         Action.progExit, Action.focusContainer] := by decide
    rw [ht] at hmem
    simp at hmem
  · decide

/-- C6 as amended: when native backward tabbing lands directly on the exit
anchor (focus not from inside the widget, no programmatic exit in progress)
over a nonempty sequence, the handler redirects focus to the widget tab stop,
prevents the default, primes the current index at the last module and,
skipping backward over modules failing validate, initializes the last valid
module with direction minus one and leaves the current index there, provided
that module defines init or is itself the final module; if the backward skip
reaches a valid module lacking init the handler exits backward instead. -/
theorem backward_reentry_last_valid (s : KNState) (j : Int) (m : NavModule)
    (hex : s.exiting = false) (htr : s.trace = []) (hne : s.modules ≠ [])
    (hj : getAt s.modules j = some m) (hval : m.validate ≠ some false)
    (hlast : ∀ k mk, j < k → getAt s.modules k = some mk → mk.validate = some false)
    (hinit : m.hasInit = true ∨ j = (s.modules.length : Int) - 1) :
    (anchorFocusFn s false).currentModuleIx = j ∧
    Action.initM j m.id (-1) ∈ (anchorFocusFn s false).trace ∧
    Action.focusContainer ∈ (anchorFocusFn s false).trace ∧
    Action.preventDefault ∈ (anchorFocusFn s false).trace := by
  have hne' : ¬ s.modules.length = 0 := fun h => hne (List.length_eq_zero.mp h)
  have hbj := getAt_some_bounds hj
  by_cases hjL : j = (s.modules.length : Int) - 1
  · rw [anchorFocus_backward_direct s hex hne' m (hjL ▸ hj) hval]
    refine ⟨?_, ?_, ?_, ?_⟩ <;> simp [doInit, backwardPrimed, htr, hjL]
  · have hjlt : j < (s.modules.length : Int) - 1 := by omega
    rcases getAt_isSome_of_bounds (l := s.modules) (i := (s.modules.length : Int) - 1)
      (by omega) (by omega) with ⟨mL, hmL⟩
    have hvL : mL.validate = some false := hlast _ mL (by omega) hmL
    rw [anchorFocus_backward_skip s hex hne' mL hmL hvL]
    have hres := move_reach (backwardPrimed s) (-1) j m (Or.inr rfl)
      (by simpa [backwardPrimed] using hj)
      (by simp only [backwardPrimed]; rw [inDirB_negOne]; exact hjlt)
      (by
        intro k hk
        simp only [backwardPrimed] at hk
        rw [betweenB_negOne] at hk
        rcases getAt_isSome_of_bounds (l := s.modules) (i := k) (by omega) (by omega)
          with ⟨mk, hmk⟩
        exact ⟨mk, by simpa [backwardPrimed] using hmk, hlast _ mk (by omega) hmk⟩)
      hval
    have hinit' : m.hasInit = true := by
      rcases hinit with h | h
      · exact h
      · exact absurd h hjL
    rcases hres.1 hinit' with ⟨-, hix, htrm⟩
    rcases move_delta (backwardPrimed s) (-1) with ⟨t, ht, -⟩
    refine ⟨hix, htrm, ?_, ?_⟩
    · rw [ht]
      simp [backwardPrimed]
    · rw [ht]
      simp [backwardPrimed]

/-- Witness for the amended C6: over a valid module with init followed by an
invalid module, the direct backward entry skips the invalid tail and
initializes module zero with direction minus one. -/
theorem backward_reentry_last_valid_witness :
    (baseState [cmA, cmInv]).exiting = false ∧
    ((anchorFocusFn (baseState [cmA, cmInv]) false).currentModuleIx = 0 ∧
     Action.initM 0 cmA.id (-1) ∈ (anchorFocusFn (baseState [cmA, cmInv]) false).trace ∧
     Action.focusContainer ∈ (anchorFocusFn (baseState [cmA, cmInv]) false).trace ∧
     Action.preventDefault ∈ (anchorFocusFn (baseState [cmA, cmInv]) false).trace) :=
  ⟨rfl,
   backward_reentry_last_valid (baseState [cmA, cmInv]) 0 cmA rfl rfl
     (by simp [baseState]) rfl (by decide)
     (by
       intro k mk hk hmk
       have hb := getAt_some_bounds hmk
       have hlen : (((baseState [cmA, cmInv]).modules.length : Nat) : Int) = 2 := rfl
       have hk1 : k = 1 := by omega
       subst hk1
       have h2 : getAt (baseState [cmA, cmInv]).modules 1 = some cmInv := rfl
       rw [h2, Option.some_inj] at hmk
       rw [← hmk]
       rfl)
     (Or.inl rfl)⟩

/-- C5 counterexample: from a fresh coordinator over two valid modules with
full capabilities, the event trace focus entry, keydown answering next,
focus entry again (all flags clear, focus arriving from outside each time) is
a legal interleaving, and it leaves both modules active at once: the second
focus entry initializes module zero without terminating the active module
one. -/
theorem two_active_modules_reachable_cex :
    Relation.ReflTransGen Step (baseState [cmA, cmB]) twoActiveState ∧
    ¬ (twoActiveState.active.length ≤ 1) := by
  constructor
  · exact Relation.ReflTransGen.tail
      (Relation.ReflTransGen.tail
        (Relation.ReflTransGen.tail Relation.ReflTransGen.refl (Step.focusEnter _ false))
        (Step.keydown _ 9))
      (Step.focusEnter _ false)
  · decide

theorem removeExitAnchorFn_fields (s : KNState) :
    (removeExitAnchorFn s).active = s.active ∧
    (removeExitAnchorFn s).currentModuleIx = s.currentModuleIx ∧
    (removeExitAnchorFn s).modules = s.modules := by
  unfold removeExitAnchorFn
  split_ifs <;> simp

theorem updateContainerTabindexFn_active (s : KNState) (enabled : Bool) :
    (updateContainerTabindexFn s enabled).active = s.active := by
  unfold updateContainerTabindexFn
  split_ifs <;> simp

theorem actInv_onFocus (s : KNState) (b : Bool) (hInv : ActInv s) (hA : s.active = []) :
    ActInv (onFocusFn s b) := by
  have hix0 : s.currentModuleIx = 0 := by
    rcases hInv with ⟨-, h⟩ | ⟨m, -, hact⟩
    · exact h
    · rw [hA] at hact
      cases hact
  by_cases hcond : (!s.exiting && !s.tabbingInBackwards && !s.isClickingChart && !b) = true
  · cases hm0 : getAt s.modules 0 with
    | none =>
      refine Or.inl ⟨?_, ?_⟩ <;> simp [onFocusFn, hcond, hm0, hA, hix0]
    | some m0 =>
      refine Or.inr ⟨m0, ?_, ?_⟩
      · simp only [onFocusFn, hcond, if_true, hm0, doInit]
        simpa [hix0] using hm0
      · simp [onFocusFn, hcond, hm0, doInit, insertActive, hA]
  · refine Or.inl ⟨?_, ?_⟩ <;> simp [onFocusFn, hcond, hA, hix0]

theorem actInv_onKeydown (s : KNState) (key : Nat) (hInv : ActInv s) :
    ActInv (onKeydownFn s key) := by
  cases hm : getAt s.modules s.currentModuleIx with
  | none =>
    rw [onKeydown_no_module key hm]
    rcases hInv with ⟨hA, hix⟩ | ⟨m, hm', -⟩
    · exact Or.inl ⟨by simp [hA], by simp [hix]⟩
    · rw [hm] at hm'
      cases hm'
  | some m =>
    have hS : ∀ a : Action, ActInv (addAction { s with keyboardReset := false, exiting := false } a) := by
      intro a
      rcases hInv with ⟨hA, hix⟩ | ⟨m', hm', ha⟩
      · exact Or.inl ⟨by simp [addAction, hA], by simp [addAction, hix]⟩
      · exact Or.inr ⟨m', by simpa [addAction] using hm', by simp [addAction, ha]⟩
    have hSpre : ∀ a : Action,
        (addAction { s with keyboardReset := false, exiting := false } a).active = [] ∨
        ∃ m', getAt (addAction { s with keyboardReset := false, exiting := false } a).modules
          (addAction { s with keyboardReset := false, exiting := false } a).currentModuleIx
            = some m' ∧
          (addAction { s with keyboardReset := false, exiting := false } a).active = [m'.id] := by
      intro a
      rcases hS a with ⟨hA, -⟩ | h
      · exact Or.inl hA
      · exact Or.inr h
    cases hr : m.run key with
    | success =>
      rw [onKeydown_eq_success hm hr]
      rcases hS (Action.runM s.currentModuleIx m.id) with ⟨hA, hix⟩ | ⟨m', hm', ha⟩
      · exact Or.inl ⟨by simpa [addAction] using hA, by simpa [addAction] using hix⟩
      · exact Or.inr ⟨m', by simpa [addAction] using hm', by simpa [addAction] using ha⟩
    | noResponse =>
      rw [onKeydown_eq_noResponse hm hr]
      exact hS _
    | unrecognized c =>
      rw [onKeydown_eq_unrecognized hm hr]
      exact hS _
    | prev =>
      rw [onKeydown_eq_prev hm hr]
      split_ifs with hc
      · rcases move_act _ (-1) (Or.inr rfl) (hSpre (Action.runM s.currentModuleIx m.id)) with
          ⟨-, m', hgm', ha⟩ | ⟨hb2, -, -⟩
        · exact Or.inr ⟨m', by simpa [addAction] using hgm', by simpa [addAction] using ha⟩
        · rw [hc] at hb2
          cases hb2
      · rcases move_act _ (-1) (Or.inr rfl) (hSpre (Action.runM s.currentModuleIx m.id)) with
          ⟨hb2, -⟩ | ⟨-, ha, hix⟩
        · exact absurd hb2 hc
        · exact Or.inl ⟨ha, hix⟩
    | next =>
      rw [onKeydown_eq_next hm hr]
      split_ifs with hc
      · rcases move_act _ 1 (Or.inl rfl) (hSpre (Action.runM s.currentModuleIx m.id)) with
          ⟨-, m', hgm', ha⟩ | ⟨hb2, -, -⟩
        · exact Or.inr ⟨m', by simpa [addAction] using hgm', by simpa [addAction] using ha⟩
        · rw [hc] at hb2
          cases hb2
      · rcases move_act _ 1 (Or.inl rfl) (hSpre (Action.runM s.currentModuleIx m.id)) with
          ⟨hb2, -⟩ | ⟨-, ha, hix⟩
        · exact absurd hb2 hc
        · exact Or.inl ⟨ha, hix⟩

theorem actInv_onMouseUp (s : KNState) (hInv : ActInv s) : ActInv (onMouseUpFn s) := by
  by_cases hg : (!s.keyboardReset && !s.pointerIsOverChart) = true
  · cases hm : getAt s.modules s.currentModuleIx with
    | none =>
      rcases hInv with ⟨hA, -⟩ | ⟨m', hm', -⟩
      · refine Or.inl ⟨?_, ?_⟩ <;>
          by_cases hf : s.focusElement = true <;>
            simp [onMouseUpFn, hg, hm, clearFocusBorder, hf, hA]
      · rw [hm] at hm'
        cases hm'
    | some m =>
      refine Or.inl ⟨?_, ?_⟩
      · rcases hInv with ⟨hA, -⟩ | ⟨m', hm', ha⟩
        · by_cases hf : s.focusElement = true <;>
            simp [onMouseUpFn, hg, hm, clearFocusBorder, coordTerminate, hf, hA]
        · rw [hm, Option.some_inj] at hm'
          subst hm'
          by_cases hf : s.focusElement = true <;>
            simp [onMouseUpFn, hg, hm, clearFocusBorder, coordTerminate, hf, ha]
      · by_cases hf : s.focusElement = true <;>
          simp [onMouseUpFn, hg, hm, clearFocusBorder, coordTerminate, hf]
  · rcases hInv with ⟨hA, hix⟩ | ⟨m', hm', ha⟩
    · exact Or.inl ⟨by simp [onMouseUpFn, hg, hA], by simp [onMouseUpFn, hg, hix]⟩
    · exact Or.inr ⟨m', by simpa [onMouseUpFn, hg] using hm',
        by simpa [onMouseUpFn, hg] using ha⟩

theorem actInv_move (s : KNState) (d : Int) (hd : d = 1 ∨ d = -1) (hInv : ActInv s) :
    ActInv (move s d).1 := by
  have hpre : s.active = [] ∨
      ∃ m, getAt s.modules s.currentModuleIx = some m ∧ s.active = [m.id] := by
    rcases hInv with ⟨hA, -⟩ | h
    · exact Or.inl hA
    · exact Or.inr h
  rcases move_act s d hd hpre with ⟨-, m', hgm', ha⟩ | ⟨-, ha, hix⟩
  · exact Or.inr ⟨m', hgm', ha⟩
  · exact Or.inl ⟨ha, hix⟩

theorem anchorFocus_else_of {s : KNState} {b : Bool} (h : (!b && !s.exiting) = false) :
    anchorFocusFn s b = anchorFocusElse s := by
  simp only [anchorFocusFn, h]
  rfl

theorem actInv_anchorFocus (s : KNState) (b : Bool) (hInv : ActInv s) (hA : s.active = []) :
    ActInv (anchorFocusFn s b) := by
  have hix0 : s.currentModuleIx = 0 := by
    rcases hInv with ⟨-, h⟩ | ⟨m, -, hact⟩
    · exact h
    · rw [hA] at hact
      cases hact
  by_cases hcb : (!b && !s.exiting) = true
  · have hb : b = false := by
      cases b
      · rfl
      · simp at hcb
    have hex : s.exiting = false := by
      cases hx : s.exiting
      · rfl
      · rw [hb, hx] at hcb
        simp at hcb
    subst hb
    by_cases hne : s.modules.length = 0
    · refine Or.inl ⟨?_, ?_⟩ <;>
        simp [anchorFocusFn, hex, hne, onFocusFn, addAction, hA, hix0]
    · rcases getAt_isSome_of_bounds (l := s.modules) (i := (s.modules.length : Int) - 1)
        (by omega) (by omega) with ⟨mL, hmL⟩
      by_cases hvL : mL.validate = some false
      · rw [anchorFocus_backward_skip s hex hne mL hmL hvL]
        have hpre : (backwardPrimed s).active = [] ∨
            ∃ m, getAt (backwardPrimed s).modules (backwardPrimed s).currentModuleIx = some m ∧
              (backwardPrimed s).active = [m.id] :=
          Or.inl (by simp [backwardPrimed, hA])
        rcases move_act (backwardPrimed s) (-1) (Or.inr rfl) hpre with
          ⟨-, m', hgm', ha⟩ | ⟨-, ha, hix⟩
        · exact Or.inr ⟨m', hgm', ha⟩
        · exact Or.inl ⟨ha, hix⟩
      · rw [anchorFocus_backward_direct s hex hne mL hmL hvL]
        refine Or.inr ⟨mL, ?_, ?_⟩
        · simpa [doInit, backwardPrimed] using hmL
        · simp [doInit, backwardPrimed, insertActive, hA]
  · rw [anchorFocus_else_of (by revert hcb; cases (!b && !s.exiting) <;> simp)]
    rcases hInv with ⟨hA', hix⟩ | ⟨m', hm', ha⟩
    · exact Or.inl ⟨by simp [anchorFocusElse, hA'], by simp [anchorFocusElse, hix]⟩
    · exact Or.inr ⟨m', by simpa [anchorFocusElse] using hm',
        by simpa [anchorFocusElse] using ha⟩

theorem actInv_update (s : KNState) (enabled : Bool) (order : List (List NavModule))
    (hInv : ActInv s) (hA : s.active = []) : ActInv (updateFn s enabled order) := by
  have hix0 : s.currentModuleIx = 0 := by
    rcases hInv with ⟨-, h⟩ | ⟨m, -, hact⟩
    · exact h
    · rw [hA] at hact
      cases hact
  obtain ⟨hT1, -, -⟩ := updateContainerTabindexFn_fields s enabled
  have hTa := updateContainerTabindexFn_active s enabled
  unfold updateFn
  split_ifs with hc
  · refine Or.inl ⟨?_, ?_⟩ <;>
      simp [updateExitAnchorFn, removeExitAnchorFn]
    · split_ifs <;> simp [hTa, hA]
    · split_ifs <;> simp [hT1, hix0]
  · refine Or.inl ⟨?_, ?_⟩ <;>
      simp [removeExitAnchorFn]
    · split_ifs <;> simp [hTa, hA]
    · split_ifs <;> simp

/-- C5 as amended: at most one module is active in every state reachable from
a state satisfying the activity invariant by interleavings in which focus
entry, exit anchor focus and rebuild occur only while no module is active;
keydown, pointer up and move steps are unrestricted. The unrestricted system
violates the claim (see the counterexample): onFocus and the backward
re-entry handler initialize a module without terminating the active one. -/
theorem guarded_at_most_one_active (s0 s1 : KNState) (hInv : ActInv s0)
    (hreach : Relation.ReflTransGen GStep s0 s1) : s1.active.length ≤ 1 := by
  have h1 : ActInv s1 := by
    induction hreach with
    | refl => exact hInv
    | tail hab hbc ih =>
      cases hbc with
      | focusEnter fromChart hA => exact actInv_onFocus _ fromChart ih hA
      | keydown key => exact actInv_onKeydown _ key ih
      | mouseup => exact actInv_onMouseUp _ ih
      | moveEv d hd => exact actInv_move _ d hd ih
      | anchorFocus fromChart hA => exact actInv_anchorFocus _ fromChart ih hA
      | rebuild enabled order hA => exact actInv_update _ enabled order ih hA
  rcases h1 with ⟨hA, -⟩ | ⟨m, -, hact⟩
  · rw [hA]
    simp
  · rw [hact]
    simp

/-- Witness for the amended C5: a fresh coordinator satisfies the invariant
and the empty interleaving keeps at most one module active. -/
theorem guarded_at_most_one_active_witness :
    ActInv (baseState [cmA]) ∧ (baseState [cmA]).active.length ≤ 1 :=
  ⟨Or.inl ⟨rfl, rfl⟩,
   guarded_at_most_one_active (baseState [cmA]) (baseState [cmA]) (Or.inl ⟨rfl, rfl⟩)
     Relation.ReflTransGen.refl⟩

end KeyboardNav
